import Mathlib

/-!
Verification development for the project-manager repository.

The repository keeps a hierarchical work-item tree ("issues" with
"subIssues") synchronized with an external issue tracker (issue records
with title/body/open-closed/labels) and with version-control branches.
This file gives a shallow embedding of the core logic:

* `IssueStateManager` (calculateAutomaticState / updateIssueStatesRecursively)
* the tree utilities from `issueUtils.ts`
* `GitHubIssueOperations` (getRepositoryIssues / updateIssue / deleteIssue /
  rollbackIssueState), with the external record store and the
  deleted-issues cache (tombstone set) made explicit
* `GitHubBranchOperations` (createBranch / deleteBranch / mergeBranch) and
  `BranchOperationHandler.handleStateTransition`, with external call
  outcomes supplied by an environment and the emitted calls recorded
* `GitHubCacheManager` (verifyDeletedCacheConsistency / syncDeletedCacheWithGitHub)
* the component-level sagas `handleIssueUpdate` and the recursive delete
  from `ProjectSpecificationRefactored.tsx`.

Issue numbers are modelled as `Nat` (the TypeScript code moves between the
string id of a local item and the numeric external issue number with
`parseInt`/`toString`, which is a bijection on the canonical numerals that
occur for confirmed items). The deleted-issues cache, a JS `Set` of id
strings, is modelled as a `List Nat` with set-like insert and delete.
-/

namespace PM

/-- Work-item state: the TypeScript union `'To Do' | 'In Progress' | 'Done'`. -/
inductive IssueState : Type where
  | todo
  | inProgress
  | done
deriving DecidableEq, Repr

/-- The local work item (`Issue` in `src/types.ts`): id, title, description,
state, type label, repository locator, depth level, parent reference and the
ordered list of sub-issues.  (The optional `_timestamp` render hack is not
modelled; no behaviour in the claims depends on it.) -/
inductive Issue : Type where
  | mk (id : Nat) (title description : String) (state : IssueState)
      (ty : String) (repository : String) (level : Nat)
      (parentId : Option Nat) (subIssues : List Issue)

def Issue.id : Issue → Nat
  | .mk i _ _ _ _ _ _ _ _ => i

def Issue.title : Issue → String
  | .mk _ t _ _ _ _ _ _ _ => t

def Issue.description : Issue → String
  | .mk _ _ d _ _ _ _ _ _ => d

def Issue.state : Issue → IssueState
  | .mk _ _ _ s _ _ _ _ _ => s

def Issue.ty : Issue → String
  | .mk _ _ _ _ ty _ _ _ _ => ty

def Issue.repository : Issue → String
  | .mk _ _ _ _ _ r _ _ _ => r

def Issue.level : Issue → Nat
  | .mk _ _ _ _ _ _ l _ _ => l

def Issue.parentId : Issue → Option Nat
  | .mk _ _ _ _ _ _ _ p _ => p

def Issue.subIssues : Issue → List Issue
  | .mk _ _ _ _ _ _ _ _ s => s

/-- `IssueStateManager.isLeafIssue`: an issue is a leaf when it has no sub-issues. -/
def isLeafIssue (issue : Issue) : Bool :=
  issue.subIssues.length == 0

/-- `IssueStateManager.canChangeIssueState`: only leaf issues may have their
state manually changed. -/
def canChangeIssueState (issue : Issue) : Bool :=
  isLeafIssue issue

mutual

/-- `IssueStateManager.calculateAutomaticState`: leaf issues keep their current
state; a non-leaf issue is In Progress if any sub-issue computes to
In Progress, else Done if all (≥ 1) sub-issues compute to Done, else To Do. -/
def calculateAutomaticState : Issue → IssueState
  | .mk _ _ _ st _ _ _ _ subs =>
    if subs.length == 0 then st
    else
      let subIssueStates := calcSubStates subs
      if subIssueStates.any (fun s => s == IssueState.inProgress) then .inProgress
      else if subIssueStates.length > 0 &&
          subIssueStates.all (fun s => s == IssueState.done) then .done
      else .todo

/-- The `issue.subIssues.map(subIssue => this.calculateAutomaticState(subIssue))`
step of `calculateAutomaticState`, as structural recursion over the list. -/
def calcSubStates : List Issue → List IssueState
  | [] => []
  | i :: rest => calculateAutomaticState i :: calcSubStates rest

end

mutual

/-- `IssueStateManager.updateIssueStatesRecursively`: rebuild every tree,
first recursing into the sub-issues and then overwriting the node state with
`calculateAutomaticState` of the node carrying the processed sub-issues. -/
def updateIssueStatesRecursively : List Issue → List Issue
  | [] => []
  | i :: rest => updateIssueNode i :: updateIssueStatesRecursively rest

/-- The body of the `issues.map(issue => ...)` lambda inside
`updateIssueStatesRecursively`, applied to one issue. -/
def updateIssueNode : Issue → Issue
  | .mk id t d st ty rep lv pid subs =>
    let updatedSubIssues := updateIssueStatesRecursively subs
    let calculatedState :=
      calculateAutomaticState (.mk id t d st ty rep lv pid updatedSubIssues)
    .mk id t d calculatedState ty rep lv pid updatedSubIssues

end

mutual

/-- `findIssueInTree` from `issueUtils.ts`: depth-first, pre-order first match
over a forest; not-found is a value (`none`), not a failure. -/
def findIssueInTree : List Issue → Nat → Option Issue
  | [], _ => none
  | i :: rest, targetId =>
    match findInIssue i targetId with
    | some found => some found
    | none => findIssueInTree rest targetId

/-- One iteration of the `findIssueInTree` loop: check the node itself, then
search its sub-issues. -/
def findInIssue : Issue → Nat → Option Issue
  | .mk id t d st ty rep lv pid subs, targetId =>
    if id == targetId then some (.mk id t d st ty rep lv pid subs)
    else findIssueInTree subs targetId

end

/-- `updateIssueInTree` from `issueUtils.ts`: replace the issue whose id equals
`u.id` by `u`, rebuilding every node on the path and sharing the rest. -/
def updateIssueInTree : List Issue → Issue → List Issue
  | [], _ => []
  | .mk id t d st ty rep lv pid subs :: rest, u =>
    (if id == u.id then u
     else if subs.length > 0 then Issue.mk id t d st ty rep lv pid (updateIssueInTree subs u)
     else Issue.mk id t d st ty rep lv pid subs) :: updateIssueInTree rest u

mutual

/-- `countSubIssues` from `issueUtils.ts`: the number of strict descendants
(direct children plus, for each child, its own `countSubIssues`). -/
def countSubIssues : Issue → Nat
  | .mk _ _ _ _ _ _ _ _ subs => subs.length + countSubIssuesList subs

/-- The `forEach` accumulation inside `countSubIssues`. -/
def countSubIssuesList : List Issue → Nat
  | [] => 0
  | i :: rest => countSubIssues i + countSubIssuesList rest

end

mutual

/-- Analysis helper (not itself in the source): the ids of a subtree in
post-order — children subtrees first, then the node.  This is the order in
which `deleteIssueRecursively` visits items. -/
def postorderIds : Issue → List Nat
  | .mk id _ _ _ _ _ _ _ subs => postorderIdsList subs ++ [id]

/-- Post-order ids of a forest. -/
def postorderIdsList : List Issue → List Nat
  | [] => []
  | i :: rest => postorderIds i ++ postorderIdsList rest

end

mutual

/-- Analysis helper: every node of a subtree (the node and all descendants). -/
def subtreeNodes : Issue → List Issue
  | .mk id t d st ty rep lv pid subs =>
    Issue.mk id t d st ty rep lv pid subs :: subtreeNodesList subs

/-- Every node of a forest. -/
def subtreeNodesList : List Issue → List Issue
  | [] => []
  | i :: rest => subtreeNodes i ++ subtreeNodesList rest

end

/-! ### Facts about the state computation engine -/

theorem updateIssueStatesRecursively_eq_map (l : List Issue) :
    updateIssueStatesRecursively l = l.map updateIssueNode := by
  induction l with
  | nil => simp [updateIssueStatesRecursively]
  | cons i rest ih => simp [updateIssueStatesRecursively, ih]

theorem calcSubStates_eq_map (l : List Issue) :
    calcSubStates l = l.map calculateAutomaticState := by
  induction l with
  | nil => simp [calcSubStates]
  | cons i rest ih => simp [calcSubStates, ih]

/-- For a non-leaf node, `calculateAutomaticState` ignores the node's own
state field. -/
theorem calc_state_override (id : Nat) (t d : String) (st st' : IssueState)
    (ty rep : String) (lv : Nat) (pid : Option Nat) (subs : List Issue)
    (h : subs ≠ []) :
    calculateAutomaticState (.mk id t d st' ty rep lv pid subs)
      = calculateAutomaticState (.mk id t d st ty rep lv pid subs) := by
  have hlen : (subs.length == 0) = false := by
    simp [List.length_eq_zero, h]
  simp [calculateAutomaticState, hlen]

/-- Writing the computed state back into the node does not change what the
computation would produce. -/
theorem calc_self_state (id : Nat) (t d : String) (st : IssueState)
    (ty rep : String) (lv : Nat) (pid : Option Nat) (subs : List Issue) :
    calculateAutomaticState
        (.mk id t d (calculateAutomaticState (.mk id t d st ty rep lv pid subs))
          ty rep lv pid subs)
      = calculateAutomaticState (.mk id t d st ty rep lv pid subs) := by
  cases subs with
  | nil => simp [calculateAutomaticState]
  | cons a l => exact calc_state_override _ _ _ _ _ _ _ _ _ _ (by simp)

/-- A node produced by `updateIssueNode` is a fixed point of
`calculateAutomaticState`: recomputing returns the stored state. -/
theorem calc_updateIssueNode (i : Issue) :
    calculateAutomaticState (updateIssueNode i) = (updateIssueNode i).state := by
  cases i with
  | mk id t d st ty rep lv pid subs =>
    simp only [updateIssueNode, Issue.state]
    exact calc_self_state id t d st ty rep lv pid (updateIssueStatesRecursively subs)

theorem calcSubStates_of_updated (l : List Issue) :
    calcSubStates (updateIssueStatesRecursively l)
      = (updateIssueStatesRecursively l).map Issue.state := by
  rw [calcSubStates_eq_map, updateIssueStatesRecursively_eq_map]
  induction l with
  | nil => simp
  | cons i rest ih =>
    simp only [List.map_cons, List.map_map] at *
    rw [calc_updateIssueNode i]
    congr 1

theorem updateIssueNode_state_leaf (i : Issue) (h : i.subIssues = []) :
    (updateIssueNode i).state = i.state := by
  cases i with
  | mk id t d st ty rep lv pid subs =>
    simp only [Issue.subIssues] at h
    subst h
    simp [updateIssueNode, updateIssueStatesRecursively, calculateAutomaticState,
      Issue.state]

theorem updateIssueNode_state_internal (id : Nat) (t d : String) (st : IssueState)
    (ty rep : String) (lv : Nat) (pid : Option Nat) (subs : List Issue)
    (h : subs ≠ []) :
    (updateIssueNode (.mk id t d st ty rep lv pid subs)).state =
      (if ((updateIssueStatesRecursively subs).map Issue.state).any
            (fun s => s == IssueState.inProgress) then IssueState.inProgress
       else if ((updateIssueStatesRecursively subs).map Issue.state).all
            (fun s => s == IssueState.done) then IssueState.done
       else IssueState.todo) := by
  have hS : updateIssueStatesRecursively subs ≠ [] := by
    rw [updateIssueStatesRecursively_eq_map]
    simp [h]
  have hlen : ((updateIssueStatesRecursively subs).length == 0) = false := by
    simp [List.length_eq_zero, hS]
  have hpos : 0 < (updateIssueStatesRecursively subs).length :=
    List.length_pos.mpr hS
  simp only [updateIssueNode, Issue.state, calculateAutomaticState, hlen,
    calcSubStates_of_updated]
  simp [hpos]

theorem updateIssueNode_inProgress_of_child (id : Nat) (t d : String)
    (st : IssueState) (ty rep : String) (lv : Nat) (pid : Option Nat)
    (subs : List Issue) (c : Issue) (hc : c ∈ subs)
    (hcs : (updateIssueNode c).state = IssueState.inProgress) :
    (updateIssueNode (.mk id t d st ty rep lv pid subs)).state
      = IssueState.inProgress := by
  have h : subs ≠ [] := by
    rintro rfl
    simp at hc
  rw [updateIssueNode_state_internal id t d st ty rep lv pid subs h]
  have hmem : IssueState.inProgress ∈ (updateIssueStatesRecursively subs).map Issue.state := by
    rw [updateIssueStatesRecursively_eq_map, List.map_map]
    exact List.mem_map.mpr ⟨c, hc, hcs⟩
  have hany : (((updateIssueStatesRecursively subs).map Issue.state).any
      (fun s => s == IssueState.inProgress)) = true :=
    List.any_eq_true.mpr ⟨_, hmem, by simp⟩
  simp [hany]

theorem exists_inProgress_child_of_descendant :
    ∀ (l : List Issue) (d : Issue), d ∈ subtreeNodesList l →
      (updateIssueNode d).state = IssueState.inProgress →
      ∃ c ∈ l, (updateIssueNode c).state = IssueState.inProgress
  | [], d, h, _ => by simp [subtreeNodesList] at h
  | (Issue.mk id t dd st ty rep lv pid subs) :: rest, d, h, hd => by
    rw [subtreeNodesList] at h
    rcases List.mem_append.mp h with h1 | h2
    · rw [subtreeNodes] at h1
      rcases List.mem_cons.mp h1 with heq | h3
      · exact ⟨_, List.mem_cons_self _ _, heq ▸ hd⟩
      · obtain ⟨c, hc, hcs⟩ := exists_inProgress_child_of_descendant subs d h3 hd
        exact ⟨_, List.mem_cons_self _ _,
          updateIssueNode_inProgress_of_child id t dd st ty rep lv pid subs c hc hcs⟩
    · obtain ⟨c, hc, hcs⟩ := exists_inProgress_child_of_descendant rest d h2 hd
      exact ⟨c, List.mem_cons_of_mem _ hc, hcs⟩

mutual

theorem updateIssueNode_idem : ∀ i : Issue,
    updateIssueNode (updateIssueNode i) = updateIssueNode i
  | .mk id t d st ty rep lv pid subs => by
    have hsub := updateIssueStatesRecursively_idem subs
    simp only [updateIssueNode, hsub]
    rw [calc_self_state]

theorem updateIssueStatesRecursively_idem : ∀ l : List Issue,
    updateIssueStatesRecursively (updateIssueStatesRecursively l)
      = updateIssueStatesRecursively l
  | [] => by simp [updateIssueStatesRecursively]
  | i :: rest => by
    simp only [updateIssueStatesRecursively]
    rw [updateIssueNode_idem i, updateIssueStatesRecursively_idem rest]

end

/-- Claim C2: the recursive state computation processes each tree node by
`updateIssueNode`; it leaves every leaf's state unchanged; it assigns every
node with at least one child In Progress if some child's computed state is
In Progress, else Done if every child's computed state is Done, else To Do;
and an In Progress computed state anywhere strictly below a node forces the
node's computed state to In Progress. -/
theorem stateComputation_rules :
    (∀ issues : List Issue,
      updateIssueStatesRecursively issues = issues.map updateIssueNode) ∧
    (∀ i : Issue, i.subIssues = [] → (updateIssueNode i).state = i.state) ∧
    (∀ i : Issue, i.subIssues ≠ [] →
      (updateIssueNode i).state =
        (if ((updateIssueStatesRecursively i.subIssues).map Issue.state).any
              (fun s => s == IssueState.inProgress) then IssueState.inProgress
         else if ((updateIssueStatesRecursively i.subIssues).map Issue.state).all
              (fun s => s == IssueState.done) then IssueState.done
         else IssueState.todo)) ∧
    (∀ i : Issue, ∀ d ∈ subtreeNodesList i.subIssues,
      (updateIssueNode d).state = IssueState.inProgress →
      (updateIssueNode i).state = IssueState.inProgress) := by
  refine ⟨updateIssueStatesRecursively_eq_map, updateIssueNode_state_leaf, ?_, ?_⟩
  · intro i h
    cases i with
    | mk id t d st ty rep lv pid subs =>
      simp only [Issue.subIssues] at h
      exact updateIssueNode_state_internal id t d st ty rep lv pid subs h
  · intro i d hd hs
    cases i with
    | mk id t dd st ty rep lv pid subs =>
      simp only [Issue.subIssues] at hd
      obtain ⟨c, hc, hcs⟩ := exists_inProgress_child_of_descendant subs d hd hs
      exact updateIssueNode_inProgress_of_child id t dd st ty rep lv pid subs c hc hcs

/-- A leaf already In Progress, used as a concrete instance. -/
def exInProgressLeaf : Issue := .mk 12 "deep" "" .inProgress "Task" "o/r" 2 (some 11) []

/-- A parent with one Done child and one To Do child. -/
def exMixParent : Issue :=
  .mk 1 "p" "" .inProgress "Task" "o/r" 0 none
    [.mk 2 "a" "" .done "Task" "o/r" 1 (some 1) [],
     .mk 3 "b" "" .todo "Task" "o/r" 1 (some 1) []]

/-- A parent whose In Progress item sits two levels down, next to a Done child. -/
def exDeepParent : Issue :=
  .mk 10 "root" "" .todo "Task" "o/r" 0 none
    [.mk 13 "a" "" .done "Task" "o/r" 1 (some 10) [],
     .mk 11 "b" "" .todo "Task" "o/r" 1 (some 10) [exInProgressLeaf]]

theorem stateComputation_rules_witness :
    (updateIssueNode exInProgressLeaf).state = exInProgressLeaf.state ∧
    (updateIssueNode exMixParent).state = IssueState.todo ∧
    (updateIssueNode exDeepParent).state = IssueState.inProgress := by
  refine ⟨stateComputation_rules.2.1 exInProgressLeaf rfl, ?_, ?_⟩
  · exact (stateComputation_rules.2.2.1 exMixParent
      (by simp [exMixParent, Issue.subIssues])).trans rfl
  · refine stateComputation_rules.2.2.2 exDeepParent exInProgressLeaf ?_ rfl
    show exInProgressLeaf ∈ subtreeNodesList exDeepParent.subIssues
    simp only [exDeepParent, Issue.subIssues, exInProgressLeaf, subtreeNodesList,
      subtreeNodes, List.append_nil, List.nil_append]
    exact List.mem_append.mpr (Or.inr (List.mem_cons_of_mem _ (List.mem_cons_self _ _)))

/-- Claim C8: for every list of work-item trees, applying the recursive state
computation twice in succession yields a tree identical to applying it once. -/
theorem stateComputation_idempotent (issues : List Issue) :
    updateIssueStatesRecursively (updateIssueStatesRecursively issues)
      = updateIssueStatesRecursively issues :=
  updateIssueStatesRecursively_idem issues

/-! ### External issue records, the tombstone cache and issue operations -/

/-- JavaScript `String.prototype.includes`: substring containment. -/
def containsSubstr (s pat : String) : Bool :=
  decide (pat.data <:+: s.data)

/-- An external issue record: title, body, open/closed flag and labels. -/
structure IssueRecord where
  title : String
  body : String
  isOpen : Bool
  labels : List String
deriving DecidableEq, Repr

/-- The shared mutable state of the GitHub service: the external issue records
(keyed by issue number) and the deleted-issues cache (the tombstone set, a JS
`Set` of id strings modelled as a duplicate-free list of numbers). -/
structure ExtState where
  issues : List (Nat × IssueRecord)
  cache : List Nat
deriving DecidableEq, Repr

def lookupRecord (l : List (Nat × IssueRecord)) (id : Nat) : Option IssueRecord :=
  (l.find? (fun p => p.1 == id)).map (fun p => p.2)

def setRecord (l : List (Nat × IssueRecord)) (id : Nat) (r : IssueRecord) :
    List (Nat × IssueRecord) :=
  l.map (fun p => if p.1 == id then (p.1, r) else p)

/-- `Set.add` on the deleted-issues cache: no-op if present, else insert. -/
def addId (cache : List Nat) (id : Nat) : List Nat :=
  if cache.contains id then cache else cache ++ [id]

/-- `Set.delete` on the deleted-issues cache. -/
def removeId (cache : List Nat) (id : Nat) : List Nat :=
  cache.filter (fun x => x != id)

theorem mem_addId (cache : List Nat) (id x : Nat) :
    x ∈ addId cache id ↔ x ∈ cache ∨ x = id := by
  by_cases h : id ∈ cache
  · have hc : cache.contains id = true := by simpa using h
    unfold addId
    rw [if_pos hc]
    constructor
    · exact Or.inl
    · rintro (hx | rfl)
      · exact hx
      · exact h
  · have hc : ¬ (cache.contains id = true) := by simpa using h
    unfold addId
    rw [if_neg hc]
    simp

theorem mem_removeId (cache : List Nat) (id x : Nat) :
    x ∈ removeId cache id ↔ x ∈ cache ∧ x ≠ id := by
  simp [removeId, List.mem_filter]

theorem removeId_addId (cache : List Nat) (id : Nat) :
    removeId (addId cache id) id = removeId cache id := by
  by_cases h : id ∈ cache
  · have hc : cache.contains id = true := by simpa using h
    unfold addId
    rw [if_pos hc]
  · have hc : ¬ (cache.contains id = true) := by simpa using h
    unfold addId
    rw [if_neg hc]
    unfold removeId
    rw [List.filter_append]
    simp

theorem removeId_of_not_mem (cache : List Nat) (id : Nat) (h : id ∉ cache) :
    removeId cache id = cache := by
  unfold removeId
  apply List.filter_eq_self.mpr
  intro a ha
  simp only [bne_iff_ne, ne_eq, decide_eq_true_eq]
  rintro rfl
  exact h ha

theorem lookupRecord_cons (p : Nat × IssueRecord) (rest : List (Nat × IssueRecord))
    (id : Nat) :
    lookupRecord (p :: rest) id
      = if p.1 = id then some p.2 else lookupRecord rest id := by
  unfold lookupRecord
  by_cases h : p.1 = id
  · rw [List.find?_cons_of_pos _ (by simp [h])]
    simp [h]
  · rw [List.find?_cons_of_neg _ (by simp [h])]
    simp [h]

theorem setRecord_cons_of_eq (p : Nat × IssueRecord) (rest : List (Nat × IssueRecord))
    (id : Nat) (r : IssueRecord) (h : p.1 = id) :
    setRecord (p :: rest) id r = (p.1, r) :: setRecord rest id r := by
  simp [setRecord, h]

theorem setRecord_cons_of_ne (p : Nat × IssueRecord) (rest : List (Nat × IssueRecord))
    (id : Nat) (r : IssueRecord) (h : ¬ p.1 = id) :
    setRecord (p :: rest) id r = p :: setRecord rest id r := by
  simp [setRecord, h]

theorem lookupRecord_setRecord_of_some (l : List (Nat × IssueRecord)) (id : Nat)
    (r rec : IssueRecord) (h : lookupRecord l id = some rec) :
    lookupRecord (setRecord l id r) id = some r := by
  induction l with
  | nil => simp [lookupRecord] at h
  | cons p rest ih =>
    rw [lookupRecord_cons] at h
    by_cases hp : p.1 = id
    · rw [setRecord_cons_of_eq p rest id r hp, lookupRecord_cons]
      simp [hp]
    · rw [setRecord_cons_of_ne p rest id r hp, lookupRecord_cons]
      simp only [hp, if_false] at h ⊢
      exact ih h

theorem lookupRecord_setRecord_isSome (l : List (Nat × IssueRecord))
    (id id' : Nat) (r : IssueRecord) :
    (lookupRecord (setRecord l id r) id').isSome = (lookupRecord l id').isSome := by
  induction l with
  | nil => simp [lookupRecord, setRecord]
  | cons p rest ih =>
    by_cases hp : p.1 = id
    · rw [setRecord_cons_of_eq p rest id r hp, lookupRecord_cons, lookupRecord_cons]
      by_cases hq : p.1 = id'
      · simp [hq]
      · simp [hq, ih]
    · rw [setRecord_cons_of_ne p rest id r hp, lookupRecord_cons, lookupRecord_cons]
      by_cases hq : p.1 = id'
      · simp [hq]
      · simp [hq, ih]

/-- The payload of an `octokit.rest.issues.update` call: title, body,
open/closed state and the full replacement label list. -/
structure UpdatePayload where
  title : String
  body : String
  isOpen : Bool
  labels : List String
deriving DecidableEq, Repr

/-- The update payload built in step 1 of `handleIssueUpdate`:
Done ⇒ closed and anything else ⇒ open; labels are the type label plus
`in-progress` exactly when the new state is In Progress. -/
def updatePayloadFor (issue : Issue) : UpdatePayload :=
  { title := issue.title
    body := issue.description
    isOpen := !(issue.state == IssueState.done)
    labels := [issue.ty] ++
      (if issue.state == IssueState.inProgress then ["in-progress"] else []) }

/-- The compensating payload built by
`GitHubIssueOperations.rollbackIssueState` from the original issue. -/
def rollbackPayloadFor (originalIssue : Issue) : UpdatePayload :=
  { title := originalIssue.title
    body := originalIssue.description
    isOpen := !(originalIssue.state == IssueState.done)
    labels := [originalIssue.ty] ++
      (if originalIssue.state == IssueState.inProgress then ["in-progress"] else []) }

/-- The external record resulting from applying an update payload (the update
call replaces title, body, state and the whole label list). -/
def recordOfPayload (p : UpdatePayload) : IssueRecord :=
  ⟨p.title, p.body, p.isOpen, p.labels⟩

/-- The catch-block message mapping of `GitHubIssueOperations.updateIssue` for
an underlying API error with HTTP status `status` and message `msg`. -/
def updateIssueCatch (id : Nat) (status : Nat) (msg : String) : String :=
  if status == 404 then
    "Issue #" ++ toString id ++ " not found or repository not accessible."
  else if status == 403 then
    "Insufficient permissions to update issue #" ++ toString id ++ "."
  else if status == 422 then
    "Invalid issue update data. Please check the provided values."
  else if status == 401 then
    "GitHub authentication failed. Please check your access token."
  else if containsSubstr msg "Cannot update issue" then msg
  else if msg != "" then "Failed to update issue: " ++ msg
  else "Failed to update issue #" ++ toString id ++ "."

/-- `GitHubIssueOperations.updateIssue`: reject ids in the deleted cache, look
the record up (404 when absent), reject records carrying the `deleted` label,
then perform the raw update.  The raw call's outcome is supplied by the
environment: `none` means the API call succeeds, `some (status, msg)` an API
error.  Returns the new state, the raw update calls attempted and the result. -/
def updateIssueRun (st : ExtState) (id : Nat) (p : UpdatePayload)
    (apiOutcome : Option (Nat × String)) :
    ExtState × List (Nat × UpdatePayload) × Except String IssueRecord :=
  if st.cache.contains id then
    (st, [], .error ("Cannot update issue #" ++ toString id ++ ": Issue is marked as deleted"))
  else
    match lookupRecord st.issues id with
    | none =>
      (st, [], .error ("Issue #" ++ toString id ++ " not found or repository not accessible."))
    | some rec =>
      if rec.labels.contains "deleted" then
        (st, [], .error ("Cannot update issue #" ++ toString id ++ ": Issue is deleted"))
      else
        match apiOutcome with
        | some (status, msg) => (st, [(id, p)], .error (updateIssueCatch id status msg))
        | none =>
          ({ st with issues := setRecord st.issues id (recordOfPayload p) },
           [(id, p)], .ok (recordOfPayload p))

/-- `GitHubIssueOperations.rollbackIssueState`: a compensating update built
from the original issue; any failure is wrapped in a rollback-failure message. -/
def rollbackIssueStateRun (st : ExtState) (id : Nat) (originalIssue : Issue)
    (apiOutcome : Option (Nat × String)) :
    ExtState × List (Nat × UpdatePayload) × Except String Unit :=
  match updateIssueRun st id (rollbackPayloadFor originalIssue) apiOutcome with
  | (st', calls, .ok _) => (st', calls, .ok ())
  | (st', calls, .error m) =>
    (st', calls, .error ("Failed to rollback issue state: " ++ m))

/-! ### List reads and the tombstone reconciler -/

/-- `GitHubIssueOperations.getRepositoryIssues`: the repository-wide listing,
filtering out records that carry the `deleted` label or whose number is in
the deleted-issues cache. -/
def getRepositoryIssuesRun (st : ExtState) : List (Nat × IssueRecord) :=
  st.issues.filter fun p =>
    let isDeleted := p.2.labels.contains "deleted"
    let isInDeletedCache := st.cache.contains p.1
    !isDeleted && !isInDeletedCache

/-- `GitHubSubIssueOperations.convertGitHubIssue`: external record → local
issue.  Closed ⇒ Done, else the `in-progress` label ⇒ In Progress, else
To Do; the type is the first label among Feature/Bug/Task/Enhancement,
defaulting to Task; level 0, no parent, no sub-issues.  (The repository
string is rendered from fields that are absent on list responses; it plays
no role in any claim and is modelled as the empty string.) -/
def convertGitHubIssue (p : Nat × IssueRecord) : Issue :=
  let labels := p.2.labels
  let typeLabel :=
    (labels.find? (fun l => ["Feature", "Bug", "Task", "Enhancement"].contains l)).getD "Task"
  let state : IssueState :=
    if !p.2.isOpen then .done
    else if labels.contains "in-progress" then .inProgress
    else .todo
  .mk p.1 p.2.title p.2.body state typeLabel "" 0 none []

/-- `GitHubSubIssueOperations.listSubIssues`: the per-parent sub-issue
listing.  The source filters only on the `deleted` label; the deleted-issues
cache held by the class is not consulted by this filter. -/
def listSubIssuesRun (subIssuesData : List (Nat × IssueRecord)) : List Issue :=
  (subIssuesData.filter fun p => !(p.2.labels.contains "deleted")).map
    convertGitHubIssue

/-- One entry of `verifyDeletedCacheConsistency`'s report.  (The optional
`issue` payload carried alongside is not modelled; no fix-up decision
depends on it.) -/
structure Inconsistency where
  issueNumber : Nat
  inCache : Bool
  hasDeletedLabel : Bool
deriving DecidableEq, Repr

/-- The first loop of `verifyDeletedCacheConsistency`: walk the cache; an
entry is reported when its record lacks the `deleted` label, or when no
record is found at all. -/
def verifyCachePart (cache : List Nat)
    (allGitHubIssues : List (Nat × IssueRecord)) : List Inconsistency :=
  cache.filterMap fun cachedIssueId =>
    match allGitHubIssues.find? (fun p => p.1 == cachedIssueId) with
    | some githubIssue =>
      if githubIssue.2.labels.contains "deleted" then none
      else some ⟨cachedIssueId, true, false⟩
    | none => some ⟨cachedIssueId, true, false⟩

/-- The second loop of `verifyDeletedCacheConsistency`: walk the records; a
record carrying the `deleted` label whose number is missing from the cache is
reported. -/
def verifyLabelPart (cache : List Nat)
    (allGitHubIssues : List (Nat × IssueRecord)) : List Inconsistency :=
  allGitHubIssues.filterMap fun p =>
    if p.2.labels.contains "deleted" && !(cache.contains p.1) then
      some ⟨p.1, false, true⟩
    else none

/-- `GitHubCacheManager.verifyDeletedCacheConsistency`: the report list, cache
walk first, record walk second. -/
def verifyInconsistencies (cache : List Nat)
    (allGitHubIssues : List (Nat × IssueRecord)) : List Inconsistency :=
  verifyCachePart cache allGitHubIssues ++ verifyLabelPart cache allGitHubIssues

/-- One iteration of the fix-up loop in `syncDeletedCacheWithGitHub`. -/
def applyFix (cache : List Nat) (inc : Inconsistency) : List Nat :=
  if inc.inCache && !inc.hasDeletedLabel then removeId cache inc.issueNumber
  else if !inc.inCache && inc.hasDeletedLabel then addId cache inc.issueNumber
  else cache

/-- `GitHubCacheManager.syncDeletedCacheWithGitHub` on the cache: return the
cache unchanged when the verification reports consistency, otherwise apply
every fix in report order. -/
def syncDeletedCache (cache : List Nat)
    (allGitHubIssues : List (Nat × IssueRecord)) : List Nat :=
  let incs := verifyInconsistencies cache allGitHubIssues
  if incs.isEmpty then cache else incs.foldl applyFix cache

/-- The whole reconciliation pass over the service state: it reads the raw
external records (bypassing the filtered listing) and rewrites only the
deleted cache; the records and the local project tree pass through. -/
def syncDeletedCacheRun (st : ExtState) (projectIssues : List Issue) :
    ExtState × List Issue :=
  ({ issues := st.issues, cache := syncDeletedCache st.cache st.issues },
   projectIssues)

theorem not_mem_applyFix (acc : List Nat) (inc : Inconsistency) (id : Nat)
    (h : id ∉ acc)
    (hno : ¬ (inc.inCache = false ∧ inc.hasDeletedLabel = true ∧ inc.issueNumber = id)) :
    id ∉ applyFix acc inc := by
  unfold applyFix
  split
  · intro hmem
    exact h ((mem_removeId acc inc.issueNumber id).mp hmem).1
  · split
    · rename_i h1 h2
      intro hmem
      rcases (mem_addId acc inc.issueNumber id).mp hmem with hx | rfl
      · exact h hx
      · simp only [Bool.and_eq_true, Bool.not_eq_true'] at h2
        exact hno ⟨h2.1, h2.2, rfl⟩
    · exact h

theorem mem_applyFix (acc : List Nat) (inc : Inconsistency) (id : Nat)
    (h : id ∈ acc)
    (hno : ¬ (inc.inCache = true ∧ inc.hasDeletedLabel = false ∧ inc.issueNumber = id)) :
    id ∈ applyFix acc inc := by
  unfold applyFix
  split
  · rename_i h1
    simp only [Bool.and_eq_true, Bool.not_eq_true'] at h1
    rw [mem_removeId]
    refine ⟨h, fun hx => hno ⟨h1.1, h1.2, hx.symm⟩⟩
  · split
    · exact (mem_addId acc inc.issueNumber id).mpr (Or.inl h)
    · exact h

theorem not_mem_foldl_applyFix (l : List Inconsistency) (acc : List Nat) (id : Nat)
    (hno : ∀ inc ∈ l, ¬ (inc.inCache = false ∧ inc.hasDeletedLabel = true ∧ inc.issueNumber = id))
    (h : id ∉ acc) : id ∉ l.foldl applyFix acc := by
  induction l generalizing acc with
  | nil => exact h
  | cons inc rest ih =>
    rw [List.foldl_cons]
    exact ih _ (fun j hj => hno j (List.mem_cons_of_mem _ hj))
      (not_mem_applyFix acc inc id h (hno inc (List.mem_cons_self _ _)))

theorem mem_foldl_applyFix (l : List Inconsistency) (acc : List Nat) (id : Nat)
    (hno : ∀ inc ∈ l, ¬ (inc.inCache = true ∧ inc.hasDeletedLabel = false ∧ inc.issueNumber = id))
    (h : id ∈ acc) : id ∈ l.foldl applyFix acc := by
  induction l generalizing acc with
  | nil => exact h
  | cons inc rest ih =>
    rw [List.foldl_cons]
    exact ih _ (fun j hj => hno j (List.mem_cons_of_mem _ hj))
      (mem_applyFix acc inc id h (hno inc (List.mem_cons_self _ _)))

theorem shape_verifyCachePart (cache : List Nat)
    (all : List (Nat × IssueRecord)) (inc : Inconsistency)
    (h : inc ∈ verifyCachePart cache all) :
    inc.inCache = true ∧ inc.hasDeletedLabel = false ∧ inc.issueNumber ∈ cache := by
  obtain ⟨a, ha, hfa⟩ := List.mem_filterMap.mp h
  cases hfind : all.find? (fun p => p.1 == a) with
  | some g =>
    rw [hfind] at hfa
    dsimp only at hfa
    by_cases hl : g.2.labels.contains "deleted" = true
    · rw [if_pos hl] at hfa
      exact Option.noConfusion hfa
    · rw [if_neg hl] at hfa
      rw [← Option.some.inj hfa]
      exact ⟨rfl, rfl, ha⟩
  | none =>
    rw [hfind] at hfa
    dsimp only at hfa
    rw [← Option.some.inj hfa]
    exact ⟨rfl, rfl, ha⟩

theorem shape_verifyLabelPart (cache : List Nat)
    (all : List (Nat × IssueRecord)) (inc : Inconsistency)
    (h : inc ∈ verifyLabelPart cache all) :
    inc.inCache = false ∧ inc.hasDeletedLabel = true ∧
      cache.contains inc.issueNumber = false := by
  obtain ⟨p, hp, hfp⟩ := List.mem_filterMap.mp h
  by_cases hcond : (p.2.labels.contains "deleted" && !(cache.contains p.1)) = true
  · rw [if_pos hcond] at hfp
    rw [← Option.some.inj hfp]
    simp only [Bool.and_eq_true, Bool.not_eq_true'] at hcond
    exact ⟨rfl, rfl, hcond.2⟩
  · rw [if_neg hcond] at hfp
    exact Option.noConfusion hfp

theorem mem_verifyCachePart_of (cache : List Nat)
    (all : List (Nat × IssueRecord)) (id : Nat) (p : Nat × IssueRecord)
    (hid : id ∈ cache) (hfind : all.find? (fun q => q.1 == id) = some p)
    (hlab : p.2.labels.contains "deleted" = false) :
    (⟨id, true, false⟩ : Inconsistency) ∈ verifyCachePart cache all := by
  apply List.mem_filterMap.mpr
  refine ⟨id, hid, ?_⟩
  rw [hfind]
  have hlab2 : "deleted" ∉ p.2.labels := by simpa using hlab
  simp [hlab2]

theorem mem_verifyLabelPart_of (cache : List Nat)
    (all : List (Nat × IssueRecord)) (p : Nat × IssueRecord)
    (hp : p ∈ all) (hlab : p.2.labels.contains "deleted" = true)
    (hc : cache.contains p.1 = false) :
    (⟨p.1, false, true⟩ : Inconsistency) ∈ verifyLabelPart cache all := by
  apply List.mem_filterMap.mpr
  refine ⟨p, hp, ?_⟩
  have hlab2 : "deleted" ∈ p.2.labels := by simpa using hlab
  have hc2 : p.1 ∉ cache := by simpa using hc
  simp [hlab2, hc2]

/-- Claim C6 as stated is false for the per-parent listing; this is the
amended form: the repository-wide listing returns only records that are in
the store, lack the tombstone label and are not in the tombstone set, while
the per-parent sub-issue listing returns only conversions of records that
lack the tombstone label (it does not consult the tombstone set). -/
theorem listReads_tombstone_filtering :
    (∀ (st : ExtState) (p : Nat × IssueRecord), p ∈ getRepositoryIssuesRun st →
      p ∈ st.issues ∧ p.2.labels.contains "deleted" = false ∧
        st.cache.contains p.1 = false) ∧
    (∀ (subIssuesData : List (Nat × IssueRecord)) (i : Issue),
      i ∈ listSubIssuesRun subIssuesData →
      ∃ p ∈ subIssuesData, i = convertGitHubIssue p ∧
        p.2.labels.contains "deleted" = false) := by
  constructor
  · intro st p hp
    have h := List.mem_filter.mp hp
    refine ⟨h.1, ?_, ?_⟩
    · have h2 := h.2
      simp only [Bool.and_eq_true, Bool.not_eq_true'] at h2
      exact h2.1
    · have h2 := h.2
      simp only [Bool.and_eq_true, Bool.not_eq_true'] at h2
      exact h2.2
  · intro data i hi
    obtain ⟨p, hp, hpi⟩ := List.mem_map.mp hi
    have h := List.mem_filter.mp hp
    refine ⟨p, h.1, hpi.symm, ?_⟩
    have h2 := h.2
    simpa using h2

/-- A record with no labels beyond its type label: not tombstoned. -/
def exPlainRecord : IssueRecord := ⟨"t", "b", true, ["Task"]⟩

theorem listReads_tombstone_filtering_witness :
    ((6, exPlainRecord) ∈ (ExtState.mk [(6, exPlainRecord)] []).issues ∧
      exPlainRecord.labels.contains "deleted" = false) ∧
    (∃ p ∈ [((6 : Nat), exPlainRecord)],
      convertGitHubIssue (6, exPlainRecord) = convertGitHubIssue p ∧
        p.2.labels.contains "deleted" = false) := by
  constructor
  · have h := listReads_tombstone_filtering.1 (ExtState.mk [(6, exPlainRecord)] [])
      (6, exPlainRecord) (by decide)
    exact ⟨h.1, h.2.1⟩
  · obtain ⟨p, hp, hconv, hlab⟩ := listReads_tombstone_filtering.2
      [((6 : Nat), exPlainRecord)] (convertGitHubIssue (6, exPlainRecord))
      (List.mem_map.mpr ⟨(6, exPlainRecord), by decide, rfl⟩)
    exact ⟨p, hp, hconv, hlab⟩

/-- Counterexample to claim C6 as stated: a sub-issue record whose number is
in the tombstone set but which lacks the tombstone label still appears in the
per-parent sub-issue listing (the filter only checks the label). -/
theorem listSubIssues_ignores_tombstone_set :
    ¬ (∀ i ∈ listSubIssuesRun [((5 : Nat), exPlainRecord)],
        Issue.id i ∉ ([5] : List Nat)) := by
  intro h
  exact h (convertGitHubIssue (5, exPlainRecord))
    (List.mem_map.mpr ⟨(5, exPlainRecord), by decide, rfl⟩)
    (by simp [convertGitHubIssue, exPlainRecord, Issue.id])

/-- Claim C7: after one reconciliation pass, every id that was in the
tombstone set but whose external record lacks the tombstone label has been
removed from the set; every id whose external record carries the label but
which was absent from the set has been added; and the pass modifies only the
tombstone set (the records and the local project tree pass through). -/
theorem reconciliationPass_fixes_drift (st : ExtState) (projectIssues : List Issue) :
    (∀ (id : Nat) (p : Nat × IssueRecord), id ∈ st.cache →
      st.issues.find? (fun q => q.1 == id) = some p →
      p.2.labels.contains "deleted" = false →
      id ∉ (syncDeletedCacheRun st projectIssues).1.cache) ∧
    (∀ p ∈ st.issues, p.2.labels.contains "deleted" = true →
      st.cache.contains p.1 = false →
      p.1 ∈ (syncDeletedCacheRun st projectIssues).1.cache) ∧
    (syncDeletedCacheRun st projectIssues).1.issues = st.issues ∧
    (syncDeletedCacheRun st projectIssues).2 = projectIssues := by
  refine ⟨?_, ?_, rfl, rfl⟩
  · intro id p hid hfind hlab
    have he : (⟨id, true, false⟩ : Inconsistency) ∈ verifyCachePart st.cache st.issues :=
      mem_verifyCachePart_of st.cache st.issues id p hid hfind hlab
    obtain ⟨s, t, hsplit⟩ := List.append_of_mem he
    have hincs : verifyInconsistencies st.cache st.issues
        = s ++ (⟨id, true, false⟩ : Inconsistency)
            :: (t ++ verifyLabelPart st.cache st.issues) := by
      rw [verifyInconsistencies, hsplit]
      simp [List.append_assoc]
    have hne : (verifyInconsistencies st.cache st.issues).isEmpty = false := by
      rw [hincs]
      cases s <;> rfl
    show id ∉ syncDeletedCache st.cache st.issues
    unfold syncDeletedCache
    rw [hincs] at hne
    rw [hincs]
    simp only [hne, Bool.false_eq_true, if_false]
    rw [List.foldl_append, List.foldl_cons]
    apply not_mem_foldl_applyFix
    · intro inc hinc hbad
      rcases List.mem_append.mp hinc with h1 | h2
      · have hsub : inc ∈ verifyCachePart st.cache st.issues := by
          rw [hsplit]
          exact List.mem_append.mpr (Or.inr (List.mem_cons_of_mem _ h1))
        have := (shape_verifyCachePart st.cache st.issues inc hsub).1
        rw [hbad.1] at this
        exact Bool.noConfusion this
      · have hshape := shape_verifyLabelPart st.cache st.issues inc h2
        have hcontains : st.cache.contains id = true := by simpa using hid
        rw [hbad.2.2] at hshape
        rw [hcontains] at hshape
        exact Bool.noConfusion hshape.2.2
    · intro hmem
      rw [show ∀ acc : List Nat,
          applyFix acc (⟨id, true, false⟩ : Inconsistency) = removeId acc id from
        fun _ => rfl] at hmem
      exact absurd rfl ((mem_removeId _ _ _).mp hmem).2
  · intro p hp hlab hc
    have he : (⟨p.1, false, true⟩ : Inconsistency) ∈ verifyLabelPart st.cache st.issues :=
      mem_verifyLabelPart_of st.cache st.issues p hp hlab hc
    obtain ⟨s, t, hsplit⟩ := List.append_of_mem he
    have hincs : verifyInconsistencies st.cache st.issues
        = (verifyCachePart st.cache st.issues ++ s)
            ++ (⟨p.1, false, true⟩ : Inconsistency) :: t := by
      rw [verifyInconsistencies, hsplit]
      simp [List.append_assoc]
    have hne : (verifyInconsistencies st.cache st.issues).isEmpty = false := by
      rw [hincs]
      cases (verifyCachePart st.cache st.issues ++ s) <;> rfl
    show p.1 ∈ syncDeletedCache st.cache st.issues
    unfold syncDeletedCache
    rw [hincs] at hne
    rw [hincs]
    simp only [hne, Bool.false_eq_true, if_false]
    rw [List.foldl_append, List.foldl_cons]
    apply mem_foldl_applyFix
    · intro inc hinc hbad
      have hsub : inc ∈ verifyLabelPart st.cache st.issues := by
        rw [hsplit]
        exact List.mem_append.mpr (Or.inr (List.mem_cons_of_mem _ hinc))
      have := (shape_verifyLabelPart st.cache st.issues inc hsub).1
      rw [hbad.1] at this
      exact Bool.noConfusion this
    · rw [show ∀ acc : List Nat,
          applyFix acc (⟨p.1, false, true⟩ : Inconsistency) = addId acc p.1 from
        fun _ => rfl]
      exact (mem_addId _ _ _).mpr (Or.inr rfl)

/-- The tombstone-labelled record used in the reconciliation witness. -/
def exDeletedRecord : IssueRecord := ⟨"t", "b", false, ["Task", "deleted"]⟩

/-- One drifted state: id 1 is tombstoned locally but its record lost the
label; id 7 carries the label but is missing from the set. -/
def exDriftSt : ExtState := ⟨[(1, exPlainRecord), (7, exDeletedRecord)], [1]⟩

theorem reconciliationPass_fixes_drift_witness :
    (1 : Nat) ∉ (syncDeletedCacheRun exDriftSt []).1.cache ∧
    (7 : Nat) ∈ (syncDeletedCacheRun exDriftSt []).1.cache := by
  constructor
  · exact (reconciliationPass_fixes_drift exDriftSt []).1 1 (1, exPlainRecord)
      (by decide) (by decide) (by decide)
  · exact (reconciliationPass_fixes_drift exDriftSt []).2.1 (7, exDeletedRecord)
      (by decide) (by decide) (by decide)

/-! ### Branch operations and the branch lifecycle handler -/

/-- Outcome of one raw external API call, as supplied by the environment:
success with a value, or an HTTP error carrying status and message. -/
inductive ApiOutcome (α : Type) : Type where
  | ok (a : α)
  | err (status : Nat) (msg : String)
deriving DecidableEq, Repr

/-- The external branch client's behaviour for one transition attempt.  Each
field is the outcome of the corresponding octokit call, should it be made. -/
structure BranchEnv where
  getBaseRef : ApiOutcome Unit
  createRef : ApiOutcome Unit
  compareCommits : ApiOutcome Nat
  createPull : ApiOutcome Nat
  mergePull : ApiOutcome Unit
  deleteRef : ApiOutcome Unit
deriving DecidableEq, Repr

/-- The raw external calls issued by the branch operations, in order. -/
inductive BranchCall : Type where
  | getRef (ref : String)
  | createRef (ref : String)
  | compare (base head : String)
  | createPull (head base : String)
  | mergePull (prNumber : Nat)
  | deleteRef (ref : String)
deriving DecidableEq, Repr

/-- The catch-block of `GitHubBranchOperations.createBranch`: 422 means the
branch already exists, 404 a missing base branch. -/
def createBranchCatch (branchName baseBranch : String) (status : Nat)
    (msg : String) : String :=
  if status == 422 then "Branch \x27" ++ branchName ++ "\x27 already exists."
  else if status == 404 then
    "Base branch \x27" ++ baseBranch ++ "\x27 not found or repository not accessible."
  else if msg != "" then "Failed to create branch: " ++ msg
  else "Failed to create branch \x27" ++ branchName ++ "\x27."

/-- `GitHubBranchOperations.createBranch` (base branch defaulting to `main`):
read the base ref, then create the new ref; any error is mapped by the catch. -/
def createBranchRun (env : BranchEnv) (branchName baseBranch : String) :
    List BranchCall × Except String Unit :=
  match env.getBaseRef with
  | .err s m =>
    ([.getRef ("heads/" ++ baseBranch)],
     .error (createBranchCatch branchName baseBranch s m))
  | .ok _ =>
    match env.createRef with
    | .err s m =>
      ([.getRef ("heads/" ++ baseBranch), .createRef ("refs/heads/" ++ branchName)],
       .error (createBranchCatch branchName baseBranch s m))
    | .ok _ =>
      ([.getRef ("heads/" ++ baseBranch), .createRef ("refs/heads/" ++ branchName)],
       .ok ())

/-- The catch-block of `GitHubBranchOperations.deleteBranch`. -/
def deleteBranchCatch (branchName : String) (status : Nat) (msg : String) : String :=
  if status == 404 then
    "Branch \x27" ++ branchName ++ "\x27 not found or already deleted."
  else if msg != "" then "Failed to delete branch: " ++ msg
  else "Failed to delete branch \x27" ++ branchName ++ "\x27."

/-- `GitHubBranchOperations.deleteBranch`. -/
def deleteBranchRun (env : BranchEnv) (branchName : String) :
    List BranchCall × Except String Unit :=
  match env.deleteRef with
  | .ok _ => ([.deleteRef ("heads/" ++ branchName)], .ok ())
  | .err s m =>
    ([.deleteRef ("heads/" ++ branchName)], .error (deleteBranchCatch branchName s m))

/-- A value thrown inside `mergeBranch`'s try-block: an octokit API error
carrying an HTTP status, or the plain `Error` this method itself throws when
the branch is empty (a plain `Error` has no `status` field). -/
inductive MergeThrown : Type where
  | api (status : Nat) (msg : String)
  | plain (msg : String)
deriving DecidableEq, Repr

/-- The catch-block of `GitHubBranchOperations.mergeBranch`; the status checks
only fire for API errors, a plain error falls through to the message branch. -/
def mergeBranchCatch (headBranch baseBranch : String) : MergeThrown → String
  | .api status msg =>
    if status == 422 then
      "Cannot merge branch \x27" ++ headBranch
        ++ "\x27: No commits to merge or merge conflicts detected."
    else if status == 404 then
      "Branch \x27" ++ headBranch ++ "\x27 not found or repository not accessible."
    else if status == 409 then
      "Merge conflict detected in branch \x27" ++ headBranch
        ++ "\x27. Manual resolution required."
    else if msg != "" then "Merge failed: " ++ msg
    else "Failed to merge branch \x27" ++ headBranch ++ "\x27 into \x27"
      ++ baseBranch ++ "\x27."
  | .plain msg =>
    if msg != "" then "Merge failed: " ++ msg
    else "Failed to merge branch \x27" ++ headBranch ++ "\x27 into \x27"
      ++ baseBranch ++ "\x27."

/-- The message of the `Error` thrown when the compare reports zero commits
ahead. -/
def emptyBranchMsg (headBranch : String) : String :=
  "Branch \x27" ++ headBranch
    ++ "\x27 has no commits to merge. Cannot create pull request for empty branch."

/-- `GitHubBranchOperations.mergeBranch`: compare first; zero commits ahead
throws (no pull request is created); otherwise create a pull request and
merge it.  Every thrown value passes through `mergeBranchCatch`. -/
def mergeBranchRun (env : BranchEnv) (headBranch baseBranch : String) :
    List BranchCall × Except String Unit :=
  match env.compareCommits with
  | .err s m =>
    ([.compare baseBranch headBranch],
     .error (mergeBranchCatch headBranch baseBranch (.api s m)))
  | .ok aheadBy =>
    if aheadBy == 0 then
      ([.compare baseBranch headBranch],
       .error (mergeBranchCatch headBranch baseBranch (.plain (emptyBranchMsg headBranch))))
    else
      match env.createPull with
      | .err s m =>
        ([.compare baseBranch headBranch, .createPull headBranch baseBranch],
         .error (mergeBranchCatch headBranch baseBranch (.api s m)))
      | .ok prNumber =>
        match env.mergePull with
        | .err s m =>
          ([.compare baseBranch headBranch, .createPull headBranch baseBranch,
            .mergePull prNumber],
           .error (mergeBranchCatch headBranch baseBranch (.api s m)))
        | .ok _ =>
          ([.compare baseBranch headBranch, .createPull headBranch baseBranch,
            .mergePull prNumber],
           .ok ())

/-- The discriminated result of `BranchOperationHandler` operations. -/
structure BranchOperationResult where
  success : Bool
  error : Option String
  shouldRollback : Bool
deriving DecidableEq, Repr

/-- `BranchOperationHandler.handleEmptyBranch`: delete the branch without
merging; a deletion failure is a failure requiring rollback. -/
def handleEmptyBranchRun (env : BranchEnv) (branchName : String) :
    List BranchCall × BranchOperationResult :=
  match deleteBranchRun env branchName with
  | (calls, .ok _) => (calls, ⟨true, none, false⟩)
  | (calls, .error m) =>
    (calls, ⟨false, some ("Failed to delete empty branch: " ++ m), true⟩)

/-- `BranchOperationHandler.handleBranchCompletion`: merge, then delete; a
delete failure after a successful merge is only a warning; a merge failure
whose message mentions an empty branch falls back to `handleEmptyBranch`;
any other merge failure requires rollback. -/
def handleBranchCompletionRun (env : BranchEnv) (branchName : String) :
    List BranchCall × BranchOperationResult :=
  match mergeBranchRun env branchName "main" with
  | (calls, .ok _) =>
    match deleteBranchRun env branchName with
    | (calls2, .ok _) => (calls ++ calls2, ⟨true, none, false⟩)
    | (calls2, .error _) => (calls ++ calls2, ⟨true, none, false⟩)
  | (calls, .error mergeMsg) =>
    if containsSubstr mergeMsg "no commits to merge"
        || containsSubstr mergeMsg "empty branch" then
      match handleEmptyBranchRun env branchName with
      | (calls2, r) => (calls ++ calls2, r)
    else (calls, ⟨false, some mergeMsg, true⟩)

/-- `BranchOperationHandler.handleStateTransition`: no-op for non-leaf issues
and for To Do targets; In Progress creates the branch `issue-<id>` (any
failure is a failure requiring rollback); Done runs the completion flow. -/
def handleStateTransitionRun (env : BranchEnv) (issue : Issue)
    (newState : IssueState) : List BranchCall × BranchOperationResult :=
  if issue.subIssues.length > 0 then ([], ⟨true, none, false⟩)
  else
    let branchName := "issue-" ++ toString issue.id
    match newState with
    | .inProgress =>
      match createBranchRun env branchName "main" with
      | (calls, .ok _) => (calls, ⟨true, none, false⟩)
      | (calls, .error m) => (calls, ⟨false, some m, true⟩)
    | .done => handleBranchCompletionRun env branchName
    | .todo => ([], ⟨true, none, false⟩)

theorem emptyBranchMsg_ne (headBranch : String) :
    (emptyBranchMsg headBranch != "") = true := by
  unfold emptyBranchMsg
  simp only [bne_iff_ne, ne_eq]
  intro heq
  have := congrArg String.data heq
  simp [String.data_append] at this

theorem mergeCatch_plain_empty (headBranch baseBranch : String) :
    mergeBranchCatch headBranch baseBranch (.plain (emptyBranchMsg headBranch))
      = "Merge failed: " ++ emptyBranchMsg headBranch := by
  simp only [mergeBranchCatch, emptyBranchMsg_ne headBranch, if_true]

theorem containsSubstr_mergeFailed_emptyBranch (headBranch : String) :
    containsSubstr ("Merge failed: " ++ emptyBranchMsg headBranch)
      "no commits to merge" = true := by
  unfold containsSubstr emptyBranchMsg
  apply decide_eq_true
  rw [String.data_append, String.data_append, String.data_append,
    ← List.append_assoc]
  exact ((by decide : "no commits to merge".data <:+:
      "\x27 has no commits to merge. Cannot create pull request for empty branch.".data)).trans
    (List.suffix_append _ _).isInfix

theorem handleEmptyBranchRun_calls (env : BranchEnv) (branchName : String) :
    (handleEmptyBranchRun env branchName).1
      = [BranchCall.deleteRef ("heads/" ++ branchName)] := by
  cases hdel : env.deleteRef <;>
    simp [handleEmptyBranchRun, deleteBranchRun, hdel]

theorem handleBranchCompletion_emptyCompare (env : BranchEnv) (branchName : String)
    (hcompare : env.compareCommits = .ok 0) :
    handleBranchCompletionRun env branchName
      = ([BranchCall.compare "main" branchName] ++ (handleEmptyBranchRun env branchName).1,
         (handleEmptyBranchRun env branchName).2) := by
  have hmerge : mergeBranchRun env branchName "main"
      = ([BranchCall.compare "main" branchName],
         .error (mergeBranchCatch branchName "main" (.plain (emptyBranchMsg branchName)))) := by
    unfold mergeBranchRun
    rw [hcompare]
    rfl
  have hdetect : containsSubstr
      (mergeBranchCatch branchName "main" (.plain (emptyBranchMsg branchName)))
      "no commits to merge" = true := by
    rw [mergeCatch_plain_empty]
    exact containsSubstr_mergeFailed_emptyBranch branchName
  unfold handleBranchCompletionRun
  rw [hmerge]
  simp only [hdetect, Bool.true_or, if_true]

/-- Claim C4: on the Done-transition of a leaf whose compare reports zero
commits ahead, no pull request is created (the calls are exactly the compare
followed by the direct branch deletion); the transition succeeds when the
deletion succeeds, and a failed deletion is a failure requiring rollback. -/
theorem doneTransition_emptyBranch (env : BranchEnv) (issue : Issue)
    (hleaf : issue.subIssues = [])
    (hcompare : env.compareCommits = .ok 0) :
    ((handleStateTransitionRun env issue .done).1 =
        [BranchCall.compare "main" ("issue-" ++ toString issue.id),
         BranchCall.deleteRef ("heads/" ++ ("issue-" ++ toString issue.id))]) ∧
    (∀ c ∈ (handleStateTransitionRun env issue .done).1,
        ∀ hd bs, c ≠ BranchCall.createPull hd bs) ∧
    (env.deleteRef = .ok () →
      (handleStateTransitionRun env issue .done).2
        = ⟨true, none, false⟩) ∧
    (∀ s m, env.deleteRef = .err s m →
      (handleStateTransitionRun env issue .done).2.success = false ∧
      (handleStateTransitionRun env issue .done).2.shouldRollback = true) := by
  have hlen : ¬ (issue.subIssues.length > 0) := by simp [hleaf]
  have hrun : handleStateTransitionRun env issue .done
      = ([BranchCall.compare "main" ("issue-" ++ toString issue.id)]
          ++ (handleEmptyBranchRun env ("issue-" ++ toString issue.id)).1,
         (handleEmptyBranchRun env ("issue-" ++ toString issue.id)).2) := by
    unfold handleStateTransitionRun
    rw [if_neg hlen]
    exact handleBranchCompletion_emptyCompare env _ hcompare
  refine ⟨?_, ?_, ?_, ?_⟩
  · rw [hrun, handleEmptyBranchRun_calls]
    rfl
  · intro c hc hd bs
    rw [hrun, handleEmptyBranchRun_calls] at hc
    rcases List.mem_cons.mp hc with rfl | hc2
    · exact fun h => BranchCall.noConfusion h
    · rcases List.mem_cons.mp hc2 with rfl | hc3
      · exact fun h => BranchCall.noConfusion h
      · exact absurd hc3 (List.not_mem_nil c)
  · intro hdel
    rw [hrun]
    simp [handleEmptyBranchRun, deleteBranchRun, hdel]
  · intro s m hdel
    rw [hrun]
    simp [handleEmptyBranchRun, deleteBranchRun, hdel]

/-- A branch environment in which the issue branch has no commits ahead and
every call succeeds. -/
def exBranchEnvEmptyOk : BranchEnv := ⟨.ok (), .ok (), .ok 0, .ok 1, .ok (), .ok ()⟩

/-- A leaf issue with id 4. -/
def exLeafIssue4 : Issue := .mk 4 "leaf" "" .inProgress "Task" "o/r" 0 none []

theorem doneTransition_emptyBranch_witness :
    (handleStateTransitionRun exBranchEnvEmptyOk exLeafIssue4 .done).1 =
      [BranchCall.compare "main" "issue-4", BranchCall.deleteRef "heads/issue-4"] ∧
    (handleStateTransitionRun exBranchEnvEmptyOk exLeafIssue4 .done).2
      = ⟨true, none, false⟩ := by
  have h := doneTransition_emptyBranch exBranchEnvEmptyOk exLeafIssue4 rfl rfl
  exact ⟨h.1.trans (by rfl), h.2.2.1 rfl⟩

/-- Amended claim C5: a branch-already-exists failure (HTTP 422) during the
In Progress transition of a leaf is NOT absorbed as success — the handler
returns failure with rollback requested, like any branch-creation failure. -/
theorem inProgressTransition_alreadyExists (env : BranchEnv) (issue : Issue)
    (m : String) (hleaf : issue.subIssues = [])
    (hbase : env.getBaseRef = .ok ())
    (hcreate : env.createRef = .err 422 m) :
    handleStateTransitionRun env issue .inProgress =
      ([BranchCall.getRef "heads/main",
        BranchCall.createRef ("refs/heads/" ++ ("issue-" ++ toString issue.id))],
       ⟨false,
        some ("Branch \x27" ++ ("issue-" ++ toString issue.id) ++ "\x27 already exists."),
        true⟩) := by
  have hlen : ¬ (issue.subIssues.length > 0) := by simp [hleaf]
  unfold handleStateTransitionRun
  rw [if_neg hlen]
  unfold createBranchRun
  rw [hbase, hcreate]
  rfl

/-- A branch environment whose ref creation fails with 422 (already exists). -/
def exBranchEnvExists : BranchEnv :=
  ⟨.ok (), .err 422 "Reference already exists", .ok 1, .ok 1, .ok (), .ok ()⟩

theorem inProgressTransition_alreadyExists_witness :
    handleStateTransitionRun exBranchEnvExists exLeafIssue4 .inProgress =
      ([BranchCall.getRef "heads/main", BranchCall.createRef "refs/heads/issue-4"],
       ⟨false, some "Branch \x27issue-4\x27 already exists.", true⟩) := by
  exact (inProgressTransition_alreadyExists exBranchEnvExists exLeafIssue4
    "Reference already exists" rfl rfl rfl).trans (by rfl)

/-- Counterexample to claim C5 as stated: with the branch already existing
(422 from ref creation), the transition result is a failure that requests
rollback — not a success without compensation. -/
theorem inProgress_alreadyExists_not_absorbed :
    ¬ ((handleStateTransitionRun exBranchEnvExists exLeafIssue4 .inProgress).2.success = true ∧
       (handleStateTransitionRun exBranchEnvExists exLeafIssue4 .inProgress).2.shouldRollback = false) := by
  decide

/-! ### Soft delete and the recursive delete saga -/

/-- Events observable during a delete: tombstone-cache mutations and the raw
external calls of `deleteIssue`, in order. -/
inductive DelEvent : Type where
  | tombstoneAdd (id : Nat)
  | tombstoneRemove (id : Nat)
  | extEnsureLabel
  | extGetIssue (id : Nat)
  | extSoftDelete (id : Nat)
deriving DecidableEq, Repr

/-- Environment for `deleteIssue`: the outcome of `ensureDeletedLabelExists`
(an error carries the thrown message), and per issue number and sent label
list the outcome of the raw soft-delete update (ok carries the label list
GitHub reports back on the response). -/
structure DeleteEnv where
  ensureLabel : Except String Unit
  updateApi : Nat → List String → Except (Nat × String) (List String)

/-- The catch-block of `GitHubIssueOperations.deleteIssue` (after the cache
rollback): status mapping for API errors, message passthrough for plain ones. -/
def deleteIssueCatch (id : Nat) : MergeThrown → String
  | .api status msg =>
    if status == 404 then
      "Issue #" ++ toString id ++ " not found or repository not accessible."
    else if status == 403 then
      "Insufficient permissions to delete issue #" ++ toString id ++ "."
    else if msg != "" then "Failed to delete issue: " ++ msg
    else "Failed to delete issue #" ++ toString id ++ "."
  | .plain msg =>
    if msg != "" then "Failed to delete issue: " ++ msg
    else "Failed to delete issue #" ++ toString id ++ "."

/-- `GitHubIssueOperations.deleteIssue`: add the id to the deleted cache
immediately; ensure the `deleted` label exists; fetch the record (404 when
absent); send the update closing the issue with the current labels plus
`deleted`; verify the response carries the `deleted` label.  Any failure
rolls the cache insertion back (`Set.delete`) and reports an error. -/
def deleteIssueRun (env : DeleteEnv) (st : ExtState) (id : Nat) :
    ExtState × List DelEvent × Except String IssueRecord :=
  let cache1 := addId st.cache id
  match env.ensureLabel with
  | .error m =>
    (⟨st.issues, removeId cache1 id⟩,
     [.tombstoneAdd id, .extEnsureLabel, .tombstoneRemove id],
     .error (deleteIssueCatch id (.plain m)))
  | .ok _ =>
    match lookupRecord st.issues id with
    | none =>
      (⟨st.issues, removeId cache1 id⟩,
       [.tombstoneAdd id, .extEnsureLabel, .extGetIssue id, .tombstoneRemove id],
       .error (deleteIssueCatch id (.api 404 "Not Found")))
    | some currentIssue =>
      let currentLabels :=
        if currentIssue.labels.contains "deleted" then currentIssue.labels
        else currentIssue.labels ++ ["deleted"]
      match env.updateApi id currentLabels with
      | .error (s, m) =>
        (⟨st.issues, removeId cache1 id⟩,
         [.tombstoneAdd id, .extEnsureLabel, .extGetIssue id, .extSoftDelete id,
          .tombstoneRemove id],
         .error (deleteIssueCatch id (.api s m)))
      | .ok respLabels =>
        let newRec : IssueRecord :=
          ⟨currentIssue.title, currentIssue.body, false, respLabels⟩
        if respLabels.contains "deleted" then
          (⟨setRecord st.issues id newRec, cache1⟩,
           [.tombstoneAdd id, .extEnsureLabel, .extGetIssue id, .extSoftDelete id],
           .ok newRec)
        else
          (⟨setRecord st.issues id newRec, removeId cache1 id⟩,
           [.tombstoneAdd id, .extEnsureLabel, .extGetIssue id, .extSoftDelete id,
            .tombstoneRemove id],
           .error (deleteIssueCatch id
             (.plain ("GitHub did not apply the \x27deleted\x27 label to issue #"
               ++ toString id))))

/-- Claim C10 as stated fails when the id was already tombstoned; amended
form: the id is inserted into the tombstone set as the very first step,
before any external call; on any failure the id is removed again, so the
resulting set is the prior set minus the id — which equals the prior set
whenever the id was not already tombstoned — and on success the id stays. -/
theorem deleteIssue_tombstone_atomicity (env : DeleteEnv) (st : ExtState) (id : Nat) :
    (∃ evs, (deleteIssueRun env st id).2.1 = DelEvent.tombstoneAdd id :: evs) ∧
    (∀ e, (deleteIssueRun env st id).2.2 = .error e →
      (deleteIssueRun env st id).1.cache = removeId st.cache id) ∧
    (id ∉ st.cache → ∀ e, (deleteIssueRun env st id).2.2 = .error e →
      (deleteIssueRun env st id).1.cache = st.cache) ∧
    (∀ r, (deleteIssueRun env st id).2.2 = .ok r →
      id ∈ (deleteIssueRun env st id).1.cache) := by
  have herr : ∀ e, (deleteIssueRun env st id).2.2 = .error e →
      (deleteIssueRun env st id).1.cache = removeId st.cache id := by
    intro e he
    unfold deleteIssueRun at he ⊢
    cases hens : env.ensureLabel with
    | error m => simp only [hens, removeId_addId]
    | ok u =>
      simp only [hens] at he ⊢
      cases hrec : lookupRecord st.issues id with
      | none => simp only [hrec, removeId_addId]
      | some currentIssue =>
        simp only [hrec] at he ⊢
        cases hupd : env.updateApi id
            (if currentIssue.labels.contains "deleted" then currentIssue.labels
             else currentIssue.labels ++ ["deleted"]) with
        | error p =>
          cases p with
          | mk s m => simp only [hupd, removeId_addId]
        | ok respLabels =>
          simp only [hupd] at he ⊢
          by_cases hresp : respLabels.contains "deleted" = true
          · simp only [hresp, if_true] at he
            exact Except.noConfusion he
          · have hresp2 : respLabels.contains "deleted" = false := by
              simpa using hresp
            simp only [hresp2, Bool.false_eq_true, if_false, removeId_addId]
  refine ⟨?_, herr, ?_, ?_⟩
  · unfold deleteIssueRun
    cases env.ensureLabel with
    | error m => exact ⟨_, rfl⟩
    | ok u =>
      dsimp only
      cases lookupRecord st.issues id with
      | none => exact ⟨_, rfl⟩
      | some currentIssue =>
        dsimp only
        cases env.updateApi id
            (if currentIssue.labels.contains "deleted" then currentIssue.labels
             else currentIssue.labels ++ ["deleted"]) with
        | error p => cases p with | mk s m => exact ⟨_, rfl⟩
        | ok respLabels =>
          dsimp only
          by_cases hresp : respLabels.contains "deleted" = true
          · simp only [hresp, if_true]
            exact ⟨_, rfl⟩
          · have hresp2 : respLabels.contains "deleted" = false := by
              simpa using hresp
            simp only [hresp2, Bool.false_eq_true, if_false]
            exact ⟨_, rfl⟩
  · intro hnot e he
    rw [herr e he]
    exact removeId_of_not_mem st.cache id hnot
  · intro r hr
    unfold deleteIssueRun at hr ⊢
    cases hens : env.ensureLabel with
    | error m =>
      rw [hens] at hr
      exact Except.noConfusion hr
    | ok u =>
      simp only [hens] at hr ⊢
      cases hrec : lookupRecord st.issues id with
      | none =>
        rw [hrec] at hr
        exact Except.noConfusion hr
      | some currentIssue =>
        simp only [hrec] at hr ⊢
        cases hupd : env.updateApi id
            (if currentIssue.labels.contains "deleted" then currentIssue.labels
             else currentIssue.labels ++ ["deleted"]) with
        | error p =>
          cases p with
          | mk s m =>
            rw [hupd] at hr
            exact Except.noConfusion hr
        | ok respLabels =>
          simp only [hupd] at hr ⊢
          by_cases hresp : respLabels.contains "deleted" = true
          · simp only [hresp, if_true]
            exact (mem_addId st.cache id id).mpr (Or.inr rfl)
          · have hresp2 : respLabels.contains "deleted" = false := by
              simpa using hresp
            simp only [hresp2, Bool.false_eq_true, if_false] at hr
            exact Except.noConfusion hr

/-- A delete environment in which every call succeeds and GitHub applies the
requested labels verbatim. -/
def exDeleteEnvOk : DeleteEnv := ⟨.ok (), fun _ labels => .ok labels⟩

/-- A delete environment whose raw soft-delete update always fails with a 500. -/
def exDeleteEnvFail : DeleteEnv := ⟨.ok (), fun _ _ => .error (500, "boom")⟩

theorem deleteIssue_tombstone_atomicity_witness :
    (∃ evs, (deleteIssueRun exDeleteEnvFail (ExtState.mk [(7, exPlainRecord)] []) 7).2.1
      = DelEvent.tombstoneAdd 7 :: evs) ∧
    (deleteIssueRun exDeleteEnvFail (ExtState.mk [(7, exPlainRecord)] []) 7).1.cache
      = (ExtState.mk [(7, exPlainRecord)] []).cache := by
  refine ⟨(deleteIssue_tombstone_atomicity exDeleteEnvFail _ 7).1, ?_⟩
  exact (deleteIssue_tombstone_atomicity exDeleteEnvFail
      (ExtState.mk [(7, exPlainRecord)] []) 7).2.2.1 (by decide) _ (by rfl)

/-- Counterexample to claim C10 as stated: when the id is already in the
tombstone set before the call and the external soft-delete fails, the
rollback removes the id, so the set is NOT unchanged from before the call. -/
theorem deleteIssue_failure_removes_preexisting_tombstone :
    (deleteIssueRun exDeleteEnvFail (ExtState.mk [(7, exPlainRecord)] [7]) 7).1.cache
      ≠ (ExtState.mk [(7, exPlainRecord)] [7]).cache := by
  decide

mutual

/-- `deleteIssueRecursively` from `handleIssueDelete` (the background task):
delete every sub-issue first — the loop aborts when a delete throws, since
the exception propagates — then delete the node itself. -/
def deleteIssueRecursivelyRun (env : DeleteEnv) (st : ExtState) :
    Issue → ExtState × List DelEvent × Bool
  | .mk id _ _ _ _ _ _ _ subs =>
    match deleteIssueListRun env st subs with
    | (st1, evs, false) => (st1, evs, false)
    | (st1, evs, true) =>
      match deleteIssueRun env st1 id with
      | (st2, evs2, .ok _) => (st2, evs ++ evs2, true)
      | (st2, evs2, .error _) => (st2, evs ++ evs2, false)

/-- The `for (const subIssue of issue.subIssues)` loop of
`deleteIssueRecursively`. -/
def deleteIssueListRun (env : DeleteEnv) (st : ExtState) :
    List Issue → ExtState × List DelEvent × Bool
  | [] => (st, [], true)
  | i :: rest =>
    match deleteIssueRecursivelyRun env st i with
    | (st1, evs, false) => (st1, evs, false)
    | (st1, evs, true) =>
      match deleteIssueListRun env st1 rest with
      | (st2, evs2, b) => (st2, evs ++ evs2, b)

end

/-- The event block of one successful `deleteIssue` call. -/
def deleteEventsFor (id : Nat) : List DelEvent :=
  [.tombstoneAdd id, .extEnsureLabel, .extGetIssue id, .extSoftDelete id]

/-- The issue number of an external soft-delete call event. -/
def softDeleteIdOf : DelEvent → Option Nat
  | .extSoftDelete id => some id
  | _ => none

/-- True away from external soft-delete call events. -/
def isNotSoftDelete : DelEvent → Bool
  | .extSoftDelete _ => false
  | _ => true

theorem currentLabels_contain_deleted (labels : List String) :
    (if labels.contains "deleted" then labels else labels ++ ["deleted"]).contains
      "deleted" = true := by
  by_cases h : labels.contains "deleted" = true
  · simp only [h, if_true]
  · have h2 : labels.contains "deleted" = false := by simpa using h
    simp only [h2, Bool.false_eq_true, if_false]
    simp

theorem deleteIssueRun_success (env : DeleteEnv) (st : ExtState) (id : Nat)
    (rec : IssueRecord)
    (hens : env.ensureLabel = .ok ())
    (hrec : lookupRecord st.issues id = some rec)
    (hupd : ∀ (i2 : Nat) (ls : List String), ls.contains "deleted" = true →
      ∃ out, env.updateApi i2 ls = .ok out ∧ out.contains "deleted" = true) :
    ∃ newRec, deleteIssueRun env st id =
      (⟨setRecord st.issues id newRec, addId st.cache id⟩,
       deleteEventsFor id, .ok newRec) := by
  obtain ⟨out, hout, hcont⟩ := hupd id
    (if rec.labels.contains "deleted" then rec.labels else rec.labels ++ ["deleted"])
    (currentLabels_contain_deleted rec.labels)
  refine ⟨⟨rec.title, rec.body, false, out⟩, ?_⟩
  unfold deleteIssueRun
  rw [hens]
  dsimp only
  rw [hrec]
  dsimp only
  rw [hout]
  dsimp only
  simp only [hcont, if_true]
  rfl

theorem deleteIssueRun_issues_isSome (env : DeleteEnv) (st : ExtState)
    (id x : Nat) :
    (lookupRecord (deleteIssueRun env st id).1.issues x).isSome
      = (lookupRecord st.issues x).isSome := by
  unfold deleteIssueRun
  cases env.ensureLabel with
  | error m => rfl
  | ok u =>
    dsimp only
    cases lookupRecord st.issues id with
    | none => rfl
    | some currentIssue =>
      dsimp only
      cases env.updateApi id
          (if currentIssue.labels.contains "deleted" then currentIssue.labels
           else currentIssue.labels ++ ["deleted"]) with
      | error p => cases p with | mk s m => rfl
      | ok respLabels =>
        dsimp only
        by_cases hresp : respLabels.contains "deleted" = true
        · simp only [hresp, if_true]
          exact lookupRecord_setRecord_isSome st.issues id x _
        · have hresp2 : respLabels.contains "deleted" = false := by simpa using hresp
          simp only [hresp2, Bool.false_eq_true, if_false]
          exact lookupRecord_setRecord_isSome st.issues id x _

mutual

theorem deleteIssueRecursivelyRun_trace : ∀ (i : Issue) (env : DeleteEnv) (st : ExtState),
    env.ensureLabel = .ok () →
    (∀ (i2 : Nat) (ls : List String), ls.contains "deleted" = true →
      ∃ out, env.updateApi i2 ls = .ok out ∧ out.contains "deleted" = true) →
    (∀ x ∈ postorderIds i, (lookupRecord st.issues x).isSome = true) →
    (deleteIssueRecursivelyRun env st i).2.2 = true ∧
    (deleteIssueRecursivelyRun env st i).2.1
      = (postorderIds i).flatMap deleteEventsFor ∧
    (∀ x, (lookupRecord (deleteIssueRecursivelyRun env st i).1.issues x).isSome
        = (lookupRecord st.issues x).isSome)
  | .mk id t d stt ty rep lv pid subs, env, st, hens, hupd, hpres => by
    obtain ⟨hb, hevs, hiso⟩ := deleteIssueListRun_trace subs env st hens hupd
      (fun x hx => hpres x (by
        rw [postorderIds]
        exact List.mem_append.mpr (Or.inl hx)))
    have hidmem : id ∈ postorderIds (Issue.mk id t d stt ty rep lv pid subs) := by
      rw [postorderIds]
      exact List.mem_append.mpr (Or.inr (List.mem_singleton.mpr rfl))
    rcases hrun : deleteIssueListRun env st subs with ⟨st1, evs, b⟩
    rw [hrun] at hb hevs hiso
    simp only at hb hevs hiso
    subst hb
    have hsome : (lookupRecord st1.issues id).isSome = true := by
      rw [hiso id]
      exact hpres id hidmem
    obtain ⟨rec, hrec⟩ := Option.isSome_iff_exists.mp hsome
    obtain ⟨newRec, hdel⟩ := deleteIssueRun_success env st1 id rec hens hrec hupd
    rw [deleteIssueRecursivelyRun, hrun]
    dsimp only
    rw [hdel]
    dsimp only
    refine ⟨rfl, ?_, ?_⟩
    · rw [hevs, postorderIds, List.flatMap_append]
      simp [List.flatMap_cons]
    · intro x
      rw [lookupRecord_setRecord_isSome, hiso x]

theorem deleteIssueListRun_trace : ∀ (l : List Issue) (env : DeleteEnv) (st : ExtState),
    env.ensureLabel = .ok () →
    (∀ (i2 : Nat) (ls : List String), ls.contains "deleted" = true →
      ∃ out, env.updateApi i2 ls = .ok out ∧ out.contains "deleted" = true) →
    (∀ x ∈ postorderIdsList l, (lookupRecord st.issues x).isSome = true) →
    (deleteIssueListRun env st l).2.2 = true ∧
    (deleteIssueListRun env st l).2.1
      = (postorderIdsList l).flatMap deleteEventsFor ∧
    (∀ x, (lookupRecord (deleteIssueListRun env st l).1.issues x).isSome
        = (lookupRecord st.issues x).isSome)
  | [], env, st, _, _, _ => by
    rw [deleteIssueListRun]
    exact ⟨rfl, by simp [postorderIdsList], fun x => rfl⟩
  | i :: rest, env, st, hens, hupd, hpres => by
    obtain ⟨hb1, hevs1, hiso1⟩ := deleteIssueRecursivelyRun_trace i env st hens hupd
      (fun x hx => hpres x (by
        rw [postorderIdsList]
        exact List.mem_append.mpr (Or.inl hx)))
    rcases hrun1 : deleteIssueRecursivelyRun env st i with ⟨st1, evs1, b1⟩
    rw [hrun1] at hb1 hevs1 hiso1
    simp only at hb1 hevs1 hiso1
    subst hb1
    obtain ⟨hb2, hevs2, hiso2⟩ := deleteIssueListRun_trace rest env st1 hens hupd
      (fun x hx => by
        rw [hiso1 x]
        exact hpres x (by
          rw [postorderIdsList]
          exact List.mem_append.mpr (Or.inr hx)))
    rcases hrun2 : deleteIssueListRun env st1 rest with ⟨st2, evs2, b2⟩
    rw [hrun2] at hb2 hevs2 hiso2
    simp only at hb2 hevs2 hiso2
    subst hb2
    rw [deleteIssueListRun, hrun1]
    dsimp only
    rw [hrun2]
    dsimp only
    refine ⟨rfl, ?_, ?_⟩
    · rw [hevs1, hevs2, postorderIdsList, List.flatMap_append]
    · intro x
      rw [hiso2 x, hiso1 x]

end

mutual

theorem postorderIds_length : ∀ i : Issue,
    (postorderIds i).length = countSubIssues i + 1
  | .mk id t d st ty rep lv pid subs => by
    rw [postorderIds, countSubIssues, List.length_append,
      postorderIdsList_length subs]
    simp

theorem postorderIdsList_length : ∀ l : List Issue,
    (postorderIdsList l).length = l.length + countSubIssuesList l
  | [] => rfl
  | i :: rest => by
    rw [postorderIdsList, List.length_append, postorderIds_length i,
      postorderIdsList_length rest, countSubIssuesList, List.length_cons]
    omega

end

theorem id_mem_postorderIds (i : Issue) : i.id ∈ postorderIds i := by
  cases i with
  | mk id t d st ty rep lv pid subs =>
    rw [postorderIds]
    exact List.mem_append.mpr (Or.inr (List.mem_singleton.mpr rfl))

theorem postorderIds_sublist_of_mem : ∀ (l : List Issue) (c : Issue), c ∈ l →
    List.Sublist (postorderIds c) (postorderIdsList l)
  | [], c, h => absurd h (List.not_mem_nil c)
  | i :: rest, c, h => by
    rw [postorderIdsList]
    rcases List.mem_cons.mp h with heq | h2
    · rw [heq]
      exact List.sublist_append_left _ _
    · exact (postorderIds_sublist_of_mem rest c h2).trans
        (List.sublist_append_right _ _)

theorem childParent_sublist_node (n : Issue) (c : Issue) (hc : c ∈ n.subIssues) :
    List.Sublist [c.id, n.id] (postorderIds n) := by
  cases n with
  | mk id t d st ty rep lv pid subs =>
    simp only [Issue.subIssues] at hc
    rw [postorderIds]
    have h1 : List.Sublist [c.id] (postorderIdsList subs) :=
      List.singleton_sublist.mpr
        ((postorderIds_sublist_of_mem subs c hc).subset (id_mem_postorderIds c))
    show List.Sublist ([c.id] ++ [id]) (postorderIdsList subs ++ [id])
    exact List.Sublist.append h1 (List.Sublist.refl [id])

mutual

theorem childParent_sublist_in_tree : ∀ (root n : Issue), n ∈ subtreeNodes root →
    ∀ c ∈ n.subIssues, List.Sublist [c.id, n.id] (postorderIds root)
  | .mk id t d st ty rep lv pid subs, n, hn, c, hc => by
    rw [subtreeNodes] at hn
    rcases List.mem_cons.mp hn with heq | h2
    · rw [heq] at hc ⊢
      exact childParent_sublist_node _ c hc
    · have h3 := childParent_sublist_in_forest subs n h2 c hc
      rw [postorderIds]
      exact h3.trans (List.sublist_append_left _ _)

theorem childParent_sublist_in_forest : ∀ (l : List Issue) (n : Issue),
    n ∈ subtreeNodesList l →
    ∀ c ∈ n.subIssues, List.Sublist [c.id, n.id] (postorderIdsList l)
  | [], n, hn, c, hc => by
    rw [subtreeNodesList] at hn
    exact absurd hn (List.not_mem_nil n)
  | i :: rest, n, hn, c, hc => by
    rw [subtreeNodesList] at hn
    rw [postorderIdsList]
    rcases List.mem_append.mp hn with h1 | h2
    · exact (childParent_sublist_in_tree i n h1 c hc).trans
        (List.sublist_append_left _ _)
    · exact (childParent_sublist_in_forest rest n h2 c hc).trans
        (List.sublist_append_right _ _)

end

theorem filterMap_softDelete_flatMap (ids : List Nat) :
    (ids.flatMap deleteEventsFor).filterMap softDeleteIdOf = ids := by
  induction ids with
  | nil => rfl
  | cons a rest ih =>
    rw [List.flatMap_cons, List.filterMap_append, ih]
    rfl

/-- Claim C3, amended on the tombstone timing: when every external call
succeeds, the delete saga issues exactly one external soft-delete call per
subtree item — `countSubIssues issue + 1` in total — in post-order, so every
child's delete call precedes its parent's; and each item's id is inserted
into the tombstone set at the start of that item's own delete (its event
block starts with the insertion), not for the whole subtree up front. -/
theorem deleteSaga_order_and_calls (env : DeleteEnv) (st : ExtState) (issue : Issue)
    (hens : env.ensureLabel = .ok ())
    (hupd : ∀ (i2 : Nat) (ls : List String), ls.contains "deleted" = true →
      ∃ out, env.updateApi i2 ls = .ok out ∧ out.contains "deleted" = true)
    (hpres : ∀ x ∈ postorderIds issue, (lookupRecord st.issues x).isSome = true) :
    (deleteIssueRecursivelyRun env st issue).2.2 = true ∧
    (deleteIssueRecursivelyRun env st issue).2.1
      = (postorderIds issue).flatMap deleteEventsFor ∧
    (deleteIssueRecursivelyRun env st issue).2.1.filterMap softDeleteIdOf
      = postorderIds issue ∧
    (postorderIds issue).length = countSubIssues issue + 1 ∧
    (∀ n ∈ subtreeNodes issue, ∀ c ∈ n.subIssues,
      List.Sublist [c.id, n.id] (postorderIds issue)) := by
  obtain ⟨h1, h2, _⟩ := deleteIssueRecursivelyRun_trace issue env st hens hupd hpres
  refine ⟨h1, h2, ?_, postorderIds_length issue,
    fun n hn c hc => childParent_sublist_in_tree issue n hn c hc⟩
  rw [h2]
  exact filterMap_softDelete_flatMap (postorderIds issue)

/-- A parent (id 1) with one child (id 2). -/
def exParentChild : Issue :=
  .mk 1 "p" "" .todo "Task" "o/r" 0 none
    [.mk 2 "c" "" .todo "Task" "o/r" 1 (some 1) []]

/-- External records for the parent and the child. -/
def exDelSt : ExtState := ⟨[(1, exPlainRecord), (2, exPlainRecord)], []⟩

theorem deleteSaga_order_and_calls_witness :
    (deleteIssueRecursivelyRun exDeleteEnvOk exDelSt exParentChild).2.1.filterMap
        softDeleteIdOf = [2, 1] ∧
    (postorderIds exParentChild).length = countSubIssues exParentChild + 1 ∧
    List.Sublist [2, 1] (postorderIds exParentChild) := by
  have h := deleteSaga_order_and_calls exDeleteEnvOk exDelSt exParentChild rfl
    (fun i2 ls hls => ⟨ls, rfl, hls⟩)
    (by decide)
  refine ⟨h.2.2.1.trans (by rfl), h.2.2.2.1, ?_⟩
  have hmem : (Issue.mk 2 "c" "" .todo "Task" "o/r" 1 (some 1) []) ∈
      exParentChild.subIssues := List.mem_singleton.mpr rfl
  have hn : exParentChild ∈ subtreeNodes exParentChild := by
    rw [exParentChild, subtreeNodes]
    exact List.mem_cons_self _ _
  exact h.2.2.2.2 exParentChild hn _ hmem

/-- Counterexample to claim C3 as stated: with a parent and one child and
every external call succeeding, it is not the case that all subtree ids are
in the tombstone set before the first external soft-delete call starts — the
parent's id is only inserted after the child's delete completed. -/
theorem deleteSaga_tombstones_not_upfront :
    ¬ (∀ x ∈ postorderIds exParentChild,
        DelEvent.tombstoneAdd x ∈
          ((deleteIssueRecursivelyRun exDeleteEnvOk exDelSt exParentChild).2.1.takeWhile
            isNotSoftDelete)) := by
  decide

/-! ### The component-level update saga -/

/-- `Project` from `src/types.ts`. -/
structure Project where
  id : String
  name : String
  description : String
  repository : String
  issues : List Issue

/-- Notification levels of the toast service. -/
inductive ToastLevel : Type where
  | success
  | error
  | warning
  | info
deriving DecidableEq, Repr

/-- `OptimisticUpdateManager.createOptimisticUpdate`: splice the updated issue
into the tree and recompute every automatic state, yielding a fresh snapshot. -/
def createOptimisticUpdate (project : Project) (updatedIssue : Issue) : Project :=
  { project with
    issues := updateIssueStatesRecursively (updateIssueInTree project.issues updatedIssue) }

/-- The observable outcome of one `handleIssueUpdate` run: the snapshots
handed to `onProjectUpdate` in order, the component-level toast levels in
order (the branch handler's own progress toasts are inside
`handleStateTransitionRun` and not part of the saga verdict), the final
external state, the raw issue-update calls attempted, the raw branch calls,
and the snapshot the UI is left with. -/
structure UpdateSagaResult where
  uiProjects : List Project
  toasts : List ToastLevel
  ext : ExtState
  extUpdates : List (Nat × UpdatePayload)
  branchCalls : List BranchCall
  finalProject : Project

/-- `handleIssueUpdate` from `ProjectSpecificationRefactored.tsx`: validate
leafness; snapshot the original item; project the optimistic update; update
the external issue record (aborting and reverting the UI on failure); run the
branch transition; on a failure requiring rollback, issue the compensating
update built from the original item and revert the UI, reporting an error
either way; otherwise report success and keep the optimistic snapshot. -/
def handleIssueUpdate (project : Project) (updatedIssue : Issue)
    (st : ExtState) (apiFirst apiRollback : Option (Nat × String))
    (benv : BranchEnv) : UpdateSagaResult :=
  if canChangeIssueState updatedIssue = false then
    { uiProjects := [], toasts := [.warning], ext := st, extUpdates := [],
      branchCalls := [], finalProject := project }
  else
    match findIssueInTree project.issues updatedIssue.id with
    | none =>
      { uiProjects := [], toasts := [.error], ext := st, extUpdates := [],
        branchCalls := [], finalProject := project }
    | some originalIssue =>
      let optimisticProject := createOptimisticUpdate project updatedIssue
      match updateIssueRun st updatedIssue.id (updatePayloadFor updatedIssue) apiFirst with
      | (st1, calls1, .error _) =>
        { uiProjects := [optimisticProject, project], toasts := [.error],
          ext := st1, extUpdates := calls1, branchCalls := [],
          finalProject := project }
      | (st1, calls1, .ok _) =>
        match handleStateTransitionRun benv updatedIssue updatedIssue.state with
        | (bCalls, branchResult) =>
          if !branchResult.success && branchResult.shouldRollback then
            match rollbackIssueStateRun st1 updatedIssue.id originalIssue apiRollback with
            | (st2, calls2, .ok _) =>
              { uiProjects := [optimisticProject, project], toasts := [.error],
                ext := st2, extUpdates := calls1 ++ calls2, branchCalls := bCalls,
                finalProject := project }
            | (st2, calls2, .error _) =>
              { uiProjects := [optimisticProject, project], toasts := [.error],
                ext := st2, extUpdates := calls1 ++ calls2, branchCalls := bCalls,
                finalProject := project }
          else
            { uiProjects := [optimisticProject], toasts := [.success], ext := st1,
              extUpdates := calls1, branchCalls := bCalls,
              finalProject := optimisticProject }

theorem updateIssueRun_ok (st : ExtState) (id : Nat) (p : UpdatePayload)
    (rec : IssueRecord)
    (hcache : st.cache.contains id = false)
    (hrec : lookupRecord st.issues id = some rec)
    (hlab : rec.labels.contains "deleted" = false) :
    updateIssueRun st id p none =
      ({ st with issues := setRecord st.issues id (recordOfPayload p) },
       [(id, p)], .ok (recordOfPayload p)) := by
  unfold updateIssueRun
  simp only [hcache, Bool.false_eq_true, if_false, hrec]
  simp only [hlab, Bool.false_eq_true, if_false]

theorem updatePayloadFor_labels_no_deleted (issue : Issue)
    (hty : issue.ty ≠ "deleted") :
    (updatePayloadFor issue).labels.contains "deleted" = false := by
  have hmem : "deleted" ∉ (updatePayloadFor issue).labels := by
    unfold updatePayloadFor
    intro hmem
    rcases List.mem_append.mp hmem with h1 | h2
    · exact hty ((List.mem_singleton.mp h1).symm)
    · by_cases h : (issue.state == IssueState.inProgress) = true
      · rw [if_pos h] at h2
        have := List.mem_singleton.mp h2
        exact absurd this (by decide)
      · rw [if_neg h] at h2
        exact absurd h2 (List.not_mem_nil _)
  simpa using hmem

/-- Claim C9: a manual state-change request against an item with at least one
child is rejected by validation: a warning is reported, no external update
call and no branch call is made, no snapshot is handed to the UI, and the
project snapshot is unchanged. -/
theorem manualStateChange_nonLeaf_rejected (project : Project)
    (updatedIssue : Issue) (st : ExtState)
    (apiFirst apiRollback : Option (Nat × String)) (benv : BranchEnv)
    (h : updatedIssue.subIssues ≠ []) :
    handleIssueUpdate project updatedIssue st apiFirst apiRollback benv =
      { uiProjects := [], toasts := [.warning], ext := st, extUpdates := [],
        branchCalls := [], finalProject := project } := by
  have hc : canChangeIssueState updatedIssue = false := by
    unfold canChangeIssueState isLeafIssue
    simp [List.length_eq_zero, h]
  unfold handleIssueUpdate
  simp only [hc, if_pos]

theorem manualStateChange_nonLeaf_rejected_witness :
    handleIssueUpdate (Project.mk "p1" "n" "d" "o/r" [exParentChild])
        exParentChild (ExtState.mk [] []) none none exBranchEnvEmptyOk =
      { uiProjects := [], toasts := [.warning], ext := ExtState.mk [] [],
        extUpdates := [], branchCalls := [],
        finalProject := Project.mk "p1" "n" "d" "o/r" [exParentChild] } :=
  manualStateChange_nonLeaf_rejected _ _ _ _ _ _
    (by simp [exParentChild, Issue.subIssues])

/-- Claim C1: on a leaf update where the external issue update succeeds and
the branch transition reports a failure requiring compensation, the saga
issues exactly the forward update followed by a compensating update built
from the pre-change item (restoring its title, description, open/closed
state and labels in the external record), reports an error, and hands the UI
back the pre-attempt snapshot. -/
theorem updateSaga_compensation (project : Project)
    (updatedIssue originalIssue : Issue) (st : ExtState) (benv : BranchEnv)
    (rec : IssueRecord)
    (hleaf : updatedIssue.subIssues = [])
    (hfind : findIssueInTree project.issues updatedIssue.id = some originalIssue)
    (hcache : updatedIssue.id ∉ st.cache)
    (hrec : lookupRecord st.issues updatedIssue.id = some rec)
    (hreclab : rec.labels.contains "deleted" = false)
    (hty : updatedIssue.ty ≠ "deleted")
    (hbfail : (handleStateTransitionRun benv updatedIssue updatedIssue.state).2.success = false)
    (hbroll : (handleStateTransitionRun benv updatedIssue updatedIssue.state).2.shouldRollback = true) :
    lookupRecord (handleIssueUpdate project updatedIssue st none none benv).ext.issues
        updatedIssue.id
      = some (recordOfPayload (rollbackPayloadFor originalIssue)) ∧
    (handleIssueUpdate project updatedIssue st none none benv).extUpdates
      = [(updatedIssue.id, updatePayloadFor updatedIssue),
         (updatedIssue.id, rollbackPayloadFor originalIssue)] ∧
    (handleIssueUpdate project updatedIssue st none none benv).toasts
      = [ToastLevel.error] ∧
    (handleIssueUpdate project updatedIssue st none none benv).finalProject
      = project ∧
    (handleIssueUpdate project updatedIssue st none none benv).uiProjects
      = [createOptimisticUpdate project updatedIssue, project] := by
  have hc : canChangeIssueState updatedIssue = true := by
    unfold canChangeIssueState isLeafIssue
    simp [hleaf]
  have hcachef : st.cache.contains updatedIssue.id = false := by
    simpa using hcache
  have hfirst := updateIssueRun_ok st updatedIssue.id
    (updatePayloadFor updatedIssue) rec hcachef hrec hreclab
  have hrec1 : lookupRecord
      (setRecord st.issues updatedIssue.id
        (recordOfPayload (updatePayloadFor updatedIssue))) updatedIssue.id
      = some (recordOfPayload (updatePayloadFor updatedIssue)) :=
    lookupRecord_setRecord_of_some st.issues updatedIssue.id _ rec hrec
  have hlab1 : (recordOfPayload (updatePayloadFor updatedIssue)).labels.contains
      "deleted" = false :=
    updatePayloadFor_labels_no_deleted updatedIssue hty
  have hsecond := updateIssueRun_ok
    (ExtState.mk (setRecord st.issues updatedIssue.id
        (recordOfPayload (updatePayloadFor updatedIssue))) st.cache)
    updatedIssue.id (rollbackPayloadFor originalIssue)
    (recordOfPayload (updatePayloadFor updatedIssue)) hcachef hrec1 hlab1
  have hrb : rollbackIssueStateRun
      (ExtState.mk (setRecord st.issues updatedIssue.id
          (recordOfPayload (updatePayloadFor updatedIssue))) st.cache)
      updatedIssue.id originalIssue none
      = (ExtState.mk (setRecord
            (setRecord st.issues updatedIssue.id
              (recordOfPayload (updatePayloadFor updatedIssue)))
            updatedIssue.id (recordOfPayload (rollbackPayloadFor originalIssue)))
          st.cache,
         [(updatedIssue.id, rollbackPayloadFor originalIssue)], .ok ()) := by
    unfold rollbackIssueStateRun
    rw [hsecond]
  rcases hbr : handleStateTransitionRun benv updatedIssue updatedIssue.state
    with ⟨bCalls, bres⟩
  rw [hbr] at hbfail hbroll
  simp only at hbfail hbroll
  have hcond : (!bres.success && bres.shouldRollback) = true := by
    rw [hbfail, hbroll]
    rfl
  have hfinal : lookupRecord
      (setRecord (setRecord st.issues updatedIssue.id
          (recordOfPayload (updatePayloadFor updatedIssue)))
        updatedIssue.id (recordOfPayload (rollbackPayloadFor originalIssue)))
      updatedIssue.id
      = some (recordOfPayload (rollbackPayloadFor originalIssue)) :=
    lookupRecord_setRecord_of_some _ updatedIssue.id _ _ hrec1
  unfold handleIssueUpdate
  simp only [hc, Bool.true_eq_false, if_false, hfind]
  rw [hfirst]
  dsimp only
  rw [hbr]
  dsimp only
  rw [if_pos hcond, hrb]
  exact ⟨hfinal, rfl, rfl, rfl, rfl⟩

/-- A branch environment whose ref creation fails with 404 (base not found). -/
def exBranchEnv404 : BranchEnv :=
  ⟨.ok (), .err 404 "Not Found", .ok 1, .ok 1, .ok (), .ok ()⟩

/-- The pre-change leaf item of the compensation witness. -/
def exOrigIssue : Issue := .mk 9 "orig" "od" .todo "Task" "o/r" 0 none []

/-- The requested post-change item: same leaf, moved to In Progress. -/
def exUpdatedIssue : Issue := .mk 9 "new" "nd" .inProgress "Task" "o/r" 0 none []

/-- The compensation witness project holding only the original item. -/
def exSagaProject : Project := ⟨"p1", "n", "d", "o/r", [exOrigIssue]⟩

/-- The compensation witness external state. -/
def exSagaSt : ExtState := ⟨[(9, exPlainRecord)], []⟩

theorem updateSaga_compensation_witness :
    lookupRecord (handleIssueUpdate exSagaProject exUpdatedIssue exSagaSt
        none none exBranchEnv404).ext.issues 9
      = some (recordOfPayload (rollbackPayloadFor exOrigIssue)) ∧
    (handleIssueUpdate exSagaProject exUpdatedIssue exSagaSt
        none none exBranchEnv404).toasts = [ToastLevel.error] ∧
    (handleIssueUpdate exSagaProject exUpdatedIssue exSagaSt
        none none exBranchEnv404).finalProject = exSagaProject := by
  have h := updateSaga_compensation exSagaProject exUpdatedIssue exOrigIssue
    exSagaSt exBranchEnv404 exPlainRecord rfl rfl (by decide) rfl (by decide)
    (by decide) (by rfl) (by rfl)
  exact ⟨h.1, h.2.2.1, h.2.2.2.1⟩

end PM
